import Mathlib

/-!
Shallow embedding of the pali.canon retrieval pipeline: the citation
extraction and normalization subsystem (indexer.py), the query planner
(planner.py), the alias loader (alias_loader.py), the hybrid retriever
(retriever.py) and the answer synthesizer (synthesizer.py), together
with proofs of the specified properties.

Strings are modelled by Lean `String` (a list of unicode characters),
the regular-expression patterns of the source by dedicated scanners
over `List Char` that reproduce the Python `re` semantics (case
folding, word boundaries, greedy repetition with the backtracking the
patterns can actually exercise, and non-overlapping `finditer`
scanning).  External services (embedding store, BM25 scores,
cross-encoder, generative model) are opaque parameters; fallible
backend calls return `Except`.
-/

/-! ## Character utilities -/

/-- Python `str.lower` restricted to ASCII plus the Pāli diacritic
capitals that occur in the citation tables. -/
def pyLower (c : Char) : Char :=
  if c = 'Ā' then 'ā' else if c = 'Ī' then 'ī' else if c = 'Ū' then 'ū'
  else if c = 'Ṅ' then 'ṅ' else if c = 'Ñ' then 'ñ' else if c = 'Ṭ' then 'ṭ'
  else if c = 'Ḍ' then 'ḍ' else if c = 'Ḷ' then 'ḷ' else if c = 'Ṃ' then 'ṃ'
  else if c = 'Ṇ' then 'ṇ'
  else if 'A' ≤ c ∧ c ≤ 'Z' then Char.ofNat (c.toNat + 32) else c

/-- Python `str.upper` restricted to ASCII plus the Pāli diacritic
letters that occur in the citation tables. -/
def pyUpper (c : Char) : Char :=
  if c = 'ā' then 'Ā' else if c = 'ī' then 'Ī' else if c = 'ū' then 'Ū'
  else if c = 'ṅ' then 'Ṅ' else if c = 'ñ' then 'Ñ' else if c = 'ṭ' then 'Ṭ'
  else if c = 'ḍ' then 'Ḍ' else if c = 'ḷ' then 'Ḷ' else if c = 'ṃ' then 'Ṃ'
  else if c = 'ṇ' then 'Ṇ'
  else if 'a' ≤ c ∧ c ≤ 'z' then Char.ofNat (c.toNat - 32) else c

/-- Python regex `\s` (whitespace). -/
def isSp (c : Char) : Bool := c = ' ' ∨ c = '\t' ∨ c = '\n' ∨ c = '\x0d' ∨ c = '\x0b' ∨ c = '\x0c'

/-- Python regex `\d` (over the ASCII digits the corpus uses). -/
def isDig (c : Char) : Bool := '0' ≤ c ∧ c ≤ '9'

/-- Python regex word character `\w`: alphanumerics, underscore, and
(approximating unicode letters) every non-ASCII character. -/
def isWordChar (c : Char) : Bool := c.isAlphanum || c = '_' || decide (c.toNat ≥ 128)

/-- The separator class `[-\.:]` shared by the citation patterns. -/
def isPunctSep (c : Char) : Bool := c = '-' ∨ c = '.' ∨ c = ':'

/-- Lowercase a whole string. -/
def pyLowerStr (s : String) : String := String.mk (s.data.map pyLower)

/-- Uppercase a whole string. -/
def pyUpperStr (s : String) : String := String.mk (s.data.map pyUpper)

/-- `unicodedata` NFKD + drop-combining diacritic stripper of the
source, as the induced character map on the Pāli letters involved. -/
def stripDiacChar (c : Char) : Char :=
  if c = 'ā' then 'a' else if c = 'ī' then 'i' else if c = 'ū' then 'u'
  else if c = 'ṅ' then 'n' else if c = 'ñ' then 'n' else if c = 'ṭ' then 't'
  else if c = 'ḍ' then 'd' else if c = 'ḷ' then 'l' else if c = 'ṃ' then 'm'
  else if c = 'ṇ' then 'n'
  else if c = 'Ā' then 'A' else if c = 'Ī' then 'I' else if c = 'Ū' then 'U'
  else if c = 'Ṅ' then 'N' else if c = 'Ñ' then 'N' else if c = 'Ṭ' then 'T'
  else if c = 'Ḍ' then 'D' else if c = 'Ḷ' then 'L' else if c = 'Ṃ' then 'M'
  else if c = 'Ṇ' then 'N' else c

/-- `_strip_diacritics` of alias_loader.py / indexer.py. -/
def strip_diacritics (s : String) : String := String.mk (s.data.map stripDiacChar)

/-- Python `str.strip()`: drop whitespace at both ends. -/
def pyStrip (s : String) : String :=
  String.mk (((s.data.dropWhile isSp).reverse.dropWhile isSp).reverse)

/-- `pat` starts the list `s` (character-exact). -/
def prefixL : List Char → List Char → Bool
  | [], _ => true
  | _ :: _, [] => false
  | a :: as, b :: bs => a = b && prefixL as bs

/-- Python substring containment `pat in s` on character lists. -/
def subL (pat : List Char) : List Char → Bool
  | [] => pat.isEmpty
  | c :: tl => prefixL pat (c :: tl) || subL pat tl

/-- Python substring containment on strings. -/
def substrS (pat s : String) : Bool := subL pat.data s.data

/-- First-match association-list lookup (Python dict `get`). -/
def alookup {α : Type} : List (String × α) → String → Option α
  | [], _ => none
  | (k, v) :: rest, key => if k = key then some v else alookup rest key

/-- Lexicographic (code-point) strict comparison, Python `<` on strings. -/
def lexLt : List Char → List Char → Bool
  | [], [] => false
  | [], _ :: _ => true
  | _ :: _, [] => false
  | a :: as, b :: bs => if a < b then true else if b < a then false else lexLt as bs

/-- Python `<` on strings. -/
def strLt (a b : String) : Bool := lexLt a.data b.data

/-- Insert into an ascending list (used to model Python `sorted`). -/
def insortStr (x : String) : List String → List String
  | [] => [x]
  | y :: ys => if strLt x y then x :: y :: ys else y :: insortStr x ys

/-- Ascending sort by code points, Python `sorted` on strings. -/
def isortStr (l : List String) : List String := l.foldr insortStr []

/-- Order-preserving deduplication (Python set accumulation). -/
def dedupL (l : List String) : List String :=
  l.foldl (fun acc x => if x ∈ acc then acc else acc ++ [x]) []

/-! ## Citation tables (indexer.py) -/

/-- `NIKAYA_ABBREV` of indexer.py, in source order. -/
def NIKAYA_ABBREV : List (String × String) :=
  [("dn", "DN"), ("digha", "DN"), ("dīgha", "DN"),
   ("mn", "MN"), ("majjhima", "MN"),
   ("sn", "SN"), ("samyutta", "SN"), ("saṃyutta", "SN"),
   ("an", "AN"), ("anguttara", "AN"), ("aṅguttara", "AN"),
   ("dhp", "Dhp"), ("dhammapada", "Dhp"),
   ("ud", "Ud"), ("udana", "Ud"), ("udāna", "Ud"),
   ("it", "It"), ("itivuttaka", "It"),
   ("snp", "Sn"), ("suttanipata", "Sn"), ("suttanipāta", "Sn"),
   ("thag", "Thag"), ("theragatha", "Thag"), ("theragāthā", "Thag"),
   ("thig", "Thig"), ("therigatha", "Thig"), ("therīgāthā", "Thig"),
   ("khp", "Khp"), ("khuddakapatha", "Khp"), ("khuddakapāṭha", "Khp"),
   ("vv", "Vv"), ("vimanavatthu", "Vv"), ("vimānavatthu", "Vv"),
   ("pv", "Pv"), ("petavatthu", "Pv"),
   ("ja", "Ja"), ("jataka", "Ja"), ("jātaka", "Ja")]

/-- `SUTTA_NAME_TO_REF` of indexer.py, in source order. -/
def SUTTA_NAME_TO_REF : List (String × String) :=
  [("dhammacakkappavattana", "SN 56.11"),
   ("anattalakkhaṇa", "SN 22.59"), ("anattalakkhana", "SN 22.59"),
   ("ādittapariyāya", "SN 35.28"), ("adittapariyaya", "SN 35.28"),
   ("satipaṭṭhāna", "MN 10"), ("satipatthana", "MN 10"),
   ("mahāsatipaṭṭhāna", "DN 22"), ("mahasatipatthana", "DN 22"),
   ("kālāma", "AN 3.65"), ("kalama", "AN 3.65"),
   ("sigālovāda", "DN 31"), ("sigalovada", "DN 31"),
   ("mahāparinibbāna", "DN 16"), ("mahaparinibbana", "DN 16"),
   ("kakacūpama", "MN 21"), ("kakacupama", "MN 21"),
   ("ānāpānasati", "MN 118"), ("anapanasati", "MN 118")]

/-- `_normalize_nikaya_token` of indexer.py. -/
def normalize_nikaya_token (raw : String) : String :=
  if raw = "" then raw
  else if raw = "Sn" then "Sn"
  else
    let key := pyLowerStr raw
    if key = "sn" then "SN"
    else
      match alookup NIKAYA_ABBREV key with
      | some m => m
      | none => pyUpperStr raw

/-! ## Regex scanners

Each of the four citation patterns is embedded as a matcher
`List Char → Option (groups × rest)` tried at each position by a
shared non-overlapping scanner with word-boundary tracking. -/

/-- Strip a pattern literal case-insensitively (re.IGNORECASE): returns
the consumed input slice and the remainder. -/
def caselessStrip : List Char → List Char → Option (List Char × List Char)
  | [], s => some ([], s)
  | _ :: _, [] => none
  | a :: as, c :: cs =>
    if pyLower c = pyLower a then
      match caselessStrip as cs with
      | some (m, r) => some (c :: m, r)
      | none => none
    else none

/-- Try the alternatives of a regex group in order, with backtracking
into later alternatives when the continuation fails. -/
def tryAlts {γ : Type} (alts : List (List Char)) (s : List Char)
    (k : List Char → List Char → Option γ) : Option γ :=
  match alts with
  | [] => none
  | a :: rest =>
    match caselessStrip a s with
    | some (m, r) =>
      match k m r with
      | some v => some v
      | none => tryAlts rest s k
    | none => tryAlts rest s k

/-- Captured groups of the numbered citation patterns. -/
structure CGroups where
  raw : List Char
  n1 : List Char
  n2 : Option (List Char)
  deriving DecidableEq, Repr

/-- The trailing `\b`: next char absent or not a word character. -/
def bAfter : List Char → Bool
  | [] => true
  | c :: _ => !isWordChar c

/-- Deterministic parse of `\s*[-\.:]?\s*`. -/
def dropSep1 (s : List Char) : List Char :=
  let s1 := s.dropWhile isSp
  let s2 := match s1 with
    | c :: cs => if isPunctSep c then cs else s1
    | [] => []
  s2.dropWhile isSp

/-- The optional subnumber group `(?:\s*[-\.:]\s*(\d{1,3}))?` followed
by `\b` (with the backtracking the digit bound can exercise). -/
def nikNum2 (r : List Char) : Option (List Char × List Char) :=
  let r1 := r.dropWhile isSp
  match r1 with
  | c :: cs =>
    if isPunctSep c then
      let r2 := cs.dropWhile isSp
      let run2 := r2.takeWhile isDig
      if run2.length = 0 ∨ run2.length > 3 then none
      else
        let rest2 := r2.drop run2.length
        if bAfter rest2 then some (run2, rest2) else none
    else none
  | [] => none

/-- `\s*[-\.:]?\s*(\d{1,3})(?:\s*[-\.:]\s*(\d{1,3}))?\b`, the numeric
tail shared by `NIKAYA_REF_RE` and `FULL_NIKAYA_RE`. -/
def numTail (r : List Char) : Option (List Char × Option (List Char) × List Char) :=
  let r1 := dropSep1 r
  let run := r1.takeWhile isDig
  if run.length = 0 ∨ run.length > 3 then none
  else
    let rest := r1.drop run.length
    match nikNum2 rest with
    | some (n2, rest2) => some (run, some n2, rest2)
    | none => if bAfter rest then some (run, none, rest) else none

/-- Codes of `NIKAYA_REF_RE`, in alternation order. -/
def nikCodes : List String :=
  ["DN", "MN", "SN", "AN", "Dhp", "Ud", "It", "Sn", "Thag", "Thig", "Khp", "Vv", "Pv", "Ja"]

/-- Match `NIKAYA_REF_RE` at the head of the input. -/
def nikMatchAt (s : List Char) : Option (CGroups × List Char) :=
  tryAlts (nikCodes.map String.data) s (fun m r =>
    match numTail r with
    | some (n1, n2, rest) => some (⟨m, n1, n2⟩, rest)
    | none => none)

/-- Non-overlapping scanner (`finditer`): tries the matcher at every
word-boundary position, resuming after each match.  `pw` records
whether the previous character was a word character. -/
def scanWith {γ : Type} (M : List Char → Option (γ × List Char)) :
    Nat → Bool → List Char → List γ
  | 0, _, _ => []
  | _ + 1, _, [] => []
  | fuel + 1, pw, c :: cs =>
    if pw then scanWith M fuel (isWordChar c) cs
    else
      match M (c :: cs) with
      | some (g, rest) => g :: scanWith M fuel true rest
      | none => scanWith M fuel (isWordChar c) cs

/-- Render one `NIKAYA_REF_RE` match as its canonical citation. -/
def nik_cite (g : CGroups) : String :=
  normalize_nikaya_token (String.mk g.raw) ++ " " ++ String.mk g.n1 ++
    (match g.n2 with
     | some n2 => "." ++ String.mk n2
     | none => "")

/-- Branch (1) of `_extract_citations`: standard abbreviations. -/
def nik_citations (text : String) : List String :=
  (scanWith nikMatchAt text.data.length false text.data).map nik_cite

/-- Book names of `BOOK_REF_RE`, in alternation order. -/
def bookAlts : List String :=
  ["Dhammapada", "Dhp", "Udāna", "Udana", "Ud", "Itivuttaka", "It"]

/-- The optional `(?:[\.:]\s*(\d{1,3}))?` of `BOOK_REF_RE` followed by `\b`. -/
def bookSub (rest : List Char) : Option (List Char × List Char) :=
  match rest with
  | c :: cs =>
    if c = '.' ∨ c = ':' then
      let r2 := cs.dropWhile isSp
      let run2 := r2.takeWhile isDig
      if run2.length = 0 ∨ run2.length > 3 then none
      else
        let rest2 := r2.drop run2.length
        if bAfter rest2 then some (run2, rest2) else none
    else none
  | [] => none

/-- Continuation of `BOOK_REF_RE` after the book name: `\b\s*(\d{1,3})`
then the optional subnumber, then `\b`. -/
def bookAfterName (m r : List Char) : Option (CGroups × List Char) :=
  if bAfter r = false then none
  else
    let r1 := r.dropWhile isSp
    let run := r1.takeWhile isDig
    if run.length = 0 ∨ run.length > 3 then none
    else
      let rest := r1.drop run.length
      match bookSub rest with
      | some (n2, rest2) => some (⟨m, run, some n2⟩, rest2)
      | none => if bAfter rest then some (⟨m, run, none⟩, rest) else none

/-- Match `BOOK_REF_RE` at the head of the input. -/
def bookMatchAt (s : List Char) : Option (CGroups × List Char) :=
  tryAlts (bookAlts.map String.data) s bookAfterName

/-- Render one `BOOK_REF_RE` match (branch 1b of `_extract_citations`). -/
def book_cite (g : CGroups) : String :=
  (match alookup NIKAYA_ABBREV (pyLowerStr (String.mk g.raw)) with
   | some v => v
   | none => String.mk g.raw) ++ " " ++ String.mk g.n1 ++
    (match g.n2 with
     | some n2 => "." ++ String.mk n2
     | none => "")

/-- Branch (1b) of `_extract_citations`: book-name references. -/
def book_citations (text : String) : List String :=
  (scanWith bookMatchAt text.data.length false text.data).map book_cite

/-- Collection names of `FULL_NIKAYA_RE`, in alternation order. -/
def fullNames : List String :=
  ["Dīgha", "Digha", "Majjhima", "Saṃyutta", "Samyutta", "Aṅguttara", "Anguttara"]

/-- Continuation of `FULL_NIKAYA_RE` after the collection name:
`\s+(?:Nikāya|Nikaya)` then the shared numeric tail. -/
def fullAfterName (m r : List Char) : Option (CGroups × List Char) :=
  match r with
  | c :: cs =>
    if isSp c then
      let r1 := (c :: cs).dropWhile isSp
      tryAlts (["Nikāya", "Nikaya"].map String.data) r1 (fun _ r2 =>
        match numTail r2 with
        | some (n1, n2, rest) => some (⟨m, n1, n2⟩, rest)
        | none => none)
    else none
  | [] => none

/-- Match `FULL_NIKAYA_RE` at the head of the input. -/
def fullMatchAt (s : List Char) : Option (CGroups × List Char) :=
  tryAlts (fullNames.map String.data) s fullAfterName

/-- Render one `FULL_NIKAYA_RE` match (branch 2 of `_extract_citations`). -/
def full_cite (g : CGroups) : String :=
  (match alookup NIKAYA_ABBREV (pyLowerStr (String.mk g.raw)) with
   | some v => v
   | none => String.mk ((pyUpperStr (String.mk g.raw)).data.take 2)) ++ " " ++
    String.mk g.n1 ++
    (match g.n2 with
     | some n2 => "." ++ String.mk n2
     | none => "")

/-- Branch (2) of `_extract_citations`: full collection names. -/
def full_citations (text : String) : List String :=
  (scanWith fullMatchAt text.data.length false text.data).map full_cite

/-- Sutta names of `SUTTA_NAME_RE`, in alternation order. -/
def suttaAlts : List String :=
  ["Dhammacakkappavattana", "Anattalakkhaṇa", "Anattalakkhana",
   "Ādittapariyāya", "Adittapariyaya",
   "Satipaṭṭhāna", "Satipatthana", "Mahāsatipaṭṭhāna", "Mahasatipatthana",
   "Kālāma", "Kalama", "Sigālovāda", "Sigalovada",
   "Mahāparinibbāna", "Mahaparinibbana",
   "Kakacūpama", "Kakacupama", "Ānāpānasati", "Anapanasati"]

/-- Continuation of `SUTTA_NAME_RE`: the greedy optional `(?:\s*Sutta\b)?`. -/
def suttaAfterName (m r : List Char) : Option (List Char × List Char) :=
  let r1 := r.dropWhile isSp
  match caselessStrip "Sutta".data r1 with
  | some (_, rest) => if bAfter rest then some (m, rest) else some (m, r)
  | none => some (m, r)

/-- Match `SUTTA_NAME_RE` at the head of the input. -/
def suttaMatchAt (s : List Char) : Option (List Char × List Char) :=
  tryAlts (suttaAlts.map String.data) s suttaAfterName

/-- Branch (3) of `_extract_citations`: well-known sutta names. -/
def sutta_citations (text : String) : List String :=
  (scanWith suttaMatchAt text.data.length false text.data).filterMap
    (fun m => alookup SUTTA_NAME_TO_REF (pyLowerStr (String.mk m)))

/-- Branch (4) of `_extract_citations`: diacritic-insensitive substring
matching of the sutta-name catalog. -/
def substr_citations (text : String) : List String :=
  let tNorm := pyLowerStr (strip_diacritics text)
  SUTTA_NAME_TO_REF.filterMap (fun p =>
    let nameNorm := pyLowerStr (strip_diacritics p.1)
    if nameNorm ≠ "" ∧ substrS nameNorm tNorm then some p.2 else none)

/-- `_extract_citations` of indexer.py: the union of all four branches,
deduplicated and sorted. -/
def extract_citations (text : String) : List String :=
  if text = "" then []
  else
    isortStr (dedupL (nik_citations text ++ book_citations text ++
      full_citations text ++ sutta_citations text ++ substr_citations text))

/-! ## Query planner (planner.py) -/

/-- Python `str.split()` (split on whitespace runs, dropping empties),
accumulator-based. -/
def pySplitAux : List Char → List Char → List String
  | [], cur => if cur = [] then [] else [String.mk cur.reverse]
  | c :: cs, cur =>
    if isSp c then
      (if cur = [] then pySplitAux cs [] else String.mk cur.reverse :: pySplitAux cs [])
    else pySplitAux cs (c :: cur)

/-- Python `str.split()`. -/
def pySplit (s : String) : List String := pySplitAux s.data []

/-- Codes of `SUTTA_ID_RE`, in alternation order. -/
def idCodes : List String :=
  ["DN", "MN", "SN", "AN", "KN", "Sn", "Khp", "Dhp", "Thag", "Thig"]

/-- Tail of `SUTTA_ID_RE` after the code:
`\s*[-\s\.:]?\s*\d+(?:\.\d+)?\b` (the `\s` member of the separator
class is absorbed by the adjacent `\s*`).  Returns the remainder. -/
def idTail (r : List Char) : Option (List Char) :=
  let r1 := r.dropWhile isSp
  let r2 := match r1 with
    | c :: cs => if isPunctSep c then cs else r1
    | [] => []
  let r3 := r2.dropWhile isSp
  let run := r3.takeWhile isDig
  if run = [] then none
  else
    let rest := r3.drop run.length
    match rest with
    | '.' :: cs =>
      let run2 := cs.takeWhile isDig
      if run2 ≠ [] ∧ bAfter (cs.drop run2.length) then some (cs.drop run2.length)
      else if bAfter rest then some rest else none
    | _ => if bAfter rest then some rest else none

/-- Match `SUTTA_ID_RE` at the head of the input; the value is the
whole consumed slice (`group(0)`). -/
def idMatchAt (s : List Char) : Option (List Char × List Char) :=
  tryAlts (idCodes.map String.data) s (fun _ r =>
    match idTail r with
    | some rest => some (s.take (s.length - rest.length), rest)
    | none => none)

/-- `_norm_id` of planner.py. -/
def norm_id (tok : String) : String :=
  let t1 := (pyUpperStr tok).data.filter (fun c => c ≠ ' ')
  let t2 := t1.map (fun c => if c = ':' then '.' else c)
  let t3 := t2.filter (fun c => c ≠ '-')
  let code := t3.take 2
  let rest := t3.drop 2
  match rest with
  | c :: _ => if isDig c then String.mk (code ++ ' ' :: rest) else String.mk (code ++ rest)
  | [] => String.mk code

/-- `_scan_ids` of planner.py. -/
def scan_ids (q : String) : List String :=
  ((scanWith idMatchAt q.data.length false q.data).map
    (fun m => norm_id (String.mk m))).foldl
      (fun acc nid => if nid ∈ acc then acc else acc ++ [nid]) []

/-! ## Alias loader (alias_loader.py) -/

/-- Assoc-list write with Python-dict semantics: overwrite in place,
append new keys at the end. -/
def aset {α : Type} (m : List (String × α)) (k : String) (v : α) : List (String × α) :=
  if (alookup m k).isSome then m.map (fun kv => if kv.1 = k then (k, v) else kv)
  else m ++ [(k, v)]

/-- Python dict `setdefault` (only writes absent keys). -/
def asetdefault {α : Type} (m : List (String × α)) (k : String) (v : α) : List (String × α) :=
  if (alookup m k).isSome then m else m ++ [(k, v)]

/-- Python `id_to_aliases.setdefault(cid, []).append(alias)`. -/
def setdefaultAppend (m : List (String × List String)) (cid al : String) :
    List (String × List String) :=
  if (alookup m cid).isSome then
    m.map (fun kv => if kv.1 = cid then (kv.1, kv.2 ++ [al]) else kv)
  else m ++ [(cid, [al])]

/-- The `id_to_aliases` accumulation of `load_aliases`, over the parsed
CSV rows (canonical_id, alias) and the parsed YAML mapping. -/
def build_id_to_aliases (csvRows : List (String × String))
    (yamlData : List (String × List String)) : List (String × List String) :=
  let m := csvRows.foldl (fun m row =>
    let cid := pyStrip row.1
    let al := pyStrip row.2
    if cid ≠ "" ∧ al ≠ "" then setdefaultAppend m cid al else m) []
  yamlData.foldl (fun m p => p.2.foldl (fun m al => setdefaultAppend m p.1 al) m) m

/-- The `alias_to_id` construction of `load_aliases`: for every alias
and the canonical id itself, store the lowercased-stripped key and its
diacritic-stripped variant. -/
def build_alias_to_id (idTo : List (String × List String)) : List (String × String) :=
  idTo.foldl (fun acc p =>
    (p.2 ++ [p.1]).foldl (fun acc a =>
      let k1 := pyStrip (pyLowerStr a)
      let k2 := strip_diacritics k1
      aset (aset acc k1 p.1) k2 p.1) acc) []

/-- `load_aliases` of alias_loader.py, over parsed declarative sources. -/
def load_aliases (csvRows : List (String × String))
    (yamlData : List (String × List String)) :
    List (String × List String) × List (String × String) :=
  let idTo := build_id_to_aliases csvRows yamlData
  (idTo, build_alias_to_id idTo)

/-- A string-similarity scorer (the optional rapidfuzz `fuzz.WRatio`). -/
def Scorer : Type := String → String → ℚ

/-- Stable descending insertion by a rational key. -/
def insDescQ {α : Type} (key : α → ℚ) (x : α) : List α → List α
  | [] => [x]
  | y :: ys => if key y < key x then x :: y :: ys else y :: insDescQ key x ys

/-- Stable descending sort by a rational key (Python
`sorted(..., reverse=True)` / `list.sort(reverse=True)`). -/
def isortDescQ {α : Type} (key : α → ℚ) (l : List α) : List α :=
  l.foldl (fun acc x => insDescQ key x acc) []

/-- The exact-containment first pass of `fuzzy_ids`, with its early
return once `top_n` distinct ids are found (second component: whether
the early return fired). -/
def fuzzyExactGo (qRaw qPlain : String) (topN : Nat) :
    List (String × String) → List String → List String × Bool
  | [], found => (found, false)
  | (key, cid) :: rest, found =>
    if substrS key qRaw ∨ substrS key qPlain then
      if cid ∈ found then fuzzyExactGo qRaw qPlain topN rest found
      else
        let found2 := found ++ [cid]
        if found2.length ≥ topN then (found2, true)
        else fuzzyExactGo qRaw qPlain topN rest found2
    else fuzzyExactGo qRaw qPlain topN rest found

/-- `fuzzy_ids` of alias_loader.py; `proc` is the optional rapidfuzz
backend (`none` degrades to substring containment only). -/
def fuzzy_ids (proc : Option Scorer) (text : String)
    (aliasToId : List (String × String)) (topN : Nat) (threshold : ℚ) : List String :=
  let qRaw := pyLowerStr text
  let qPlain := strip_diacritics qRaw
  let st := fuzzyExactGo qRaw qPlain topN aliasToId []
  if st.2 then st.1
  else
    match proc with
    | none => st.1
    | some scorer =>
      let keys := aliasToId.map (fun p => p.1)
      let ms := (isortDescQ (fun kv => kv.2) (keys.map (fun k => (k, scorer qPlain k)))).take 10
      (ms.foldl (fun st2 kv =>
        if st2.2 then st2
        else if kv.2 ≥ threshold then
          match alookup aliasToId kv.1 with
          | some cid =>
            if cid ≠ "" ∧ cid ∉ st2.1 then
              let f2 := st2.1 ++ [cid]
              (f2, decide (f2.length ≥ topN))
            else st2
          | none => st2
        else st2) (st.1, false)).1

/-! ## Plan dictionaries -/

/-- Values a plan dictionary can hold. -/
inductive PVal where
  | str : String → PVal
  | list : List String → PVal
  | bool : Bool → PVal
  | dict : List (String × String) → PVal
  deriving DecidableEq, Repr

/-- A plan is a Python dict: an insertion-ordered association list. -/
def PlanD : Type := List (String × PVal)

/-- Python `plan.get(key)`. -/
def pget (p : PlanD) (k : String) : Option PVal := alookup p k

/-- Typed read of a string entry. -/
def pgetStr (p : PlanD) (k : String) : Option String :=
  match pget p k with
  | some (.str s) => some s
  | _ => none

/-- Typed read of a string-list entry. -/
def pgetList (p : PlanD) (k : String) : Option (List String) :=
  match pget p k with
  | some (.list l) => some l
  | _ => none

/-- Read of the nested constraints dict. -/
def pgetDict (p : PlanD) (k : String) : Option (List (String × String)) :=
  match pget p k with
  | some (.dict d) => some d
  | _ => none

/-- The alias context `plan_query` closes over: the two tables of
`load_aliases`, the optional fuzzy backend, and the fuzzy threshold
(`ALIAS_FUZZY_THRESHOLD`, default 85). -/
structure AliasCtx where
  idToAliases : List (String × List String)
  aliasToId : List (String × String)
  proc : Option Scorer
  threshold : ℚ

/-- Step (2) of `plan_query`: exact containment over the alias table
followed by the fuzzy pass, deduplicated in first-seen order. -/
def plan_alias_ids (ctx : AliasCtx) (qs : String) : List String :=
  let qLc := pyLowerStr qs
  let qPlain := strip_diacritics qLc
  let aliasIds1 := ctx.aliasToId.foldl (fun acc kv =>
    if substrS kv.1 qLc ∨ substrS kv.1 qPlain then
      (if kv.2 ∈ acc then acc else acc ++ [kv.2])
    else acc) []
  (fuzzy_ids ctx.proc qs ctx.aliasToId 3 ctx.threshold).foldl
    (fun acc cid => if cid ∈ acc then acc else acc ++ [cid]) aliasIds1

/-- Steps (1)+(2) of `plan_query`: scanned ids merged with alias ids,
preserving first-seen order. -/
def plan_ids (ctx : AliasCtx) (qs : String) : List String :=
  (plan_alias_ids ctx qs).foldl
    (fun acc cid => if cid ∈ acc then acc else acc ++ [cid]) (scan_ids qs)

/-- Step (3) of `plan_query`: the collection constraint derived from
the first target (the `if ids:` block). -/
def plan_nikaya_constraints (ids : List String) : List (String × String) :=
  if ids ≠ [] then
    let code := (pySplit (ids.headD "")).headD ""
    if code ∈ ["Sn", "Khp", "Dhp", "Thag", "Thig"] then [("nikaya", "KN")]
    else if code ∈ ["SN", "MN", "DN", "AN", "KN"] then [("nikaya", code)]
    else if pyLowerStr code ∈ ["sn", "mn", "dn", "an", "kn"] then
      [("nikaya", pyUpperStr code)]
    else []
  else []

/-- Steps (3)+(4) of `plan_query`: the constraints dict after basket
inference. -/
def plan_constraints (qs : String) (ids : List String) : List (String × String) :=
  let qLc := pyLowerStr qs
  let constraints0 := plan_nikaya_constraints ids
  if substrS "vinaya" qLc then aset constraints0 "basket" "vinaya"
  else if ["abhidhamma", "paṭṭhāna", "patthana", "dhammasaṅgaṇī",
      "dhammasangani"].any (fun x => substrS x qLc) then
    aset constraints0 "basket" "abhidhamma"
  else if ["sutta", "sūtta", "sermon", "discourse"].any (fun x => substrS x qLc) then
    asetdefault constraints0 "basket" "sutta"
  else constraints0

/-- Step (5) of `plan_query`: the search-term seeds. -/
def plan_seeds (ctx : AliasCtx) (qs : String) (ids : List String) : List String :=
  let qLc := pyLowerStr qs
  let qPlain := strip_diacritics qLc
  let seeds1 := if qPlain ≠ qLc then [qs, strip_diacritics qs] else [qs]
  ids.foldl (fun seeds sid =>
    ((alookup ctx.idToAliases sid).getD []).foldl
      (fun seeds a => if a ∈ seeds then seeds else seeds ++ [a]) seeds) seeds1

/-- `plan_query` of planner.py. -/
def plan_query (ctx : AliasCtx) (q : String) : PlanD :=
  let qs := pyStrip q
  let ids := plan_ids ctx qs
  [("original", .str qs), ("query", .str qs),
   ("search_terms", .list (plan_seeds ctx qs ids)),
   ("constraints", .dict (plan_constraints qs ids)),
   ("canonical_targets", .list ids),
   ("require_citations", .bool true)]

/-! ## Hybrid retriever (retriever.py) -/

/-- Backend failures: Python `TypeError` (the only exception `retrieve`
catches) versus any other backend error. -/
inductive RErr where
  | typeErr : RErr
  | backend : String → RErr
  deriving DecidableEq, Repr

/-- Index metadata written by the indexer and read with `dict.get`. -/
structure Meta where
  pdf_name : Option String
  page : Option Nat
  span_id : Option String
  folder_path : Option String
  basket : Option String
  relpath : Option String
  nikaya : Option String
  citations : Option String
  deriving DecidableEq, Repr

/-- A stored passage (LangChain `Document`). -/
structure Doc where
  page_content : String
  metadata : Meta
  deriving DecidableEq, Repr

/-- The hit dictionaries `retrieve` returns. -/
structure HitR where
  text : String
  pdf_name : Option String
  page : Option Nat
  span_id : Option String
  relpath : Option String
  nikaya : String
  citations : String
  score : ℚ
  deriving DecidableEq, Repr

/-- The opaque backend services `retrieve` queries: diversity (MMR)
vector search, plain similarity search, BM25 scoring over a cached
document list, and the cross-encoder reranker. -/
structure Backend where
  mmr : String → Nat → Nat → Option String → Except RErr (List Doc)
  similarity : String → Nat → Option String → Except RErr (List Doc)
  bm25GetScores : List String → Except RErr (List ℚ)
  bm25Docs : List Doc
  rerankScore : String → String → ℚ

instance {ε α : Type} [DecidableEq ε] [DecidableEq α] : DecidableEq (Except ε α) := fun a b =>
  match a, b with
  | .error x, .error y =>
    if h : x = y then .isTrue (by rw [h]) else .isFalse (by simp [h])
  | .ok x, .ok y =>
    if h : x = y then .isTrue (by rw [h]) else .isFalse (by simp [h])
  | .error _, .ok _ => .isFalse (by simp)
  | .ok _, .error _ => .isFalse (by simp)

/-- `TOP_K` of config.py (default). -/
def TOP_K : Nat := 8

/-- `RAG_MIN_NEEDED` of config.py (default). -/
def RAG_MIN_NEEDED : Nat := 4

/-- `MIN_HITS` of config.py (default of `RAG_MIN_HITS`). -/
def MIN_HITS : Nat := 2

/-- `_tokenize` of retriever.py. -/
def tokenize (text : String) : List String := pySplit (pyLowerStr text)

/-- Uppercase and delete spaces (the `_citation_search` comparison key). -/
def noSpaceUpper (s : String) : String :=
  String.mk ((pyUpperStr s).data.filter (fun c => c ≠ ' '))

/-- `_citation_search` of retriever.py over the cached BM25 documents. -/
def citation_search (targetRefs : List String) (docs : List Doc) : List Doc :=
  if targetRefs = [] then []
  else docs.filter (fun d =>
    let dc := d.metadata.citations.getD ""
    dc ≠ "" ∧ targetRefs.any (fun ref => substrS (noSpaceUpper ref) (noSpaceUpper dc)))

/-- Placeholder document for the (in-range) list indexing of
`_bm25_search`. -/
def dummyDoc : Doc := ⟨"", ⟨none, none, none, none, none, none, none, none⟩⟩

/-- `_bm25_search` of retriever.py: scores from the backend, stable
descending sort of the indices, top `k`, positive scores only. -/
def bm25_search (B : Backend) (query : String) (k : Nat) : Except RErr (List Doc) :=
  match B.bm25GetScores (tokenize query) with
  | .error e => .error e
  | .ok scores =>
    let idxs := (isortDescQ (fun i => scores.getD i 0) (List.range scores.length)).take k
    .ok (idxs.filterMap (fun i =>
      if scores.getD i 0 > 0 then some (B.bm25Docs.getD i dummyDoc) else none))

/-- The fused-list identity key: a 200-character text prefix. -/
def rrfKey (d : Doc) : String := String.mk (d.page_content.data.take 200)

/-- Add one ranked entry to the running RRF accumulator. -/
def rrfAdd (kc : Nat) (acc : List (String × ℚ × Doc)) (pr : Doc × Nat) :
    List (String × ℚ × Doc) :=
  let key := rrfKey pr.1
  let sc : ℚ := 1 / ((kc : ℚ) + (pr.2 : ℚ) + 1)
  if (alookup acc key).isSome then
    acc.map (fun e => if e.1 = key then (e.1, e.2.1 + sc, e.2.2) else e)
  else acc ++ [(key, sc, pr.1)]

/-- `_reciprocal_rank_fusion` of retriever.py. -/
def reciprocal_rank_fusion (lists : List (List Doc)) (kc : Nat) : List Doc :=
  let acc := lists.foldl (fun acc l =>
    (l.enum.map (fun p => (p.2, p.1))).foldl (rrfAdd kc) acc) []
  (isortDescQ (fun e => e.2.1) acc).map (fun e => e.2.2)

/-- `_rerank` of retriever.py (cross-encoder scores from the backend). -/
def rerank (B : Backend) (query : String) (docs : List Doc) (topN : Nat) : List Doc :=
  if docs = [] then docs
  else
    ((isortDescQ (fun p => p.1)
      (docs.map (fun d => (B.rerankScore query d.page_content, d)))).take topN).map
        (fun p => p.2)

/-- `_score_bias` of retriever.py. -/
def score_bias (d : Doc) (basketHint : Option String) : ℚ :=
  match basketHint with
  | some b => if b ≠ "" ∧ d.metadata.basket = some b then 1 / 10 else 0
  | none => 0

/-- Stable ascending insertion by a string key. -/
def insAscStr {α : Type} (key : α → String) (x : α) : List α → List α
  | [] => [x]
  | y :: ys => if strLt (key x) (key y) then x :: y :: ys else y :: insAscStr key x ys

/-- Stable ascending sort by a string key (Python `sorted`). -/
def isortAscStr {α : Type} (key : α → String) (l : List α) : List α :=
  l.foldl (fun acc x => insAscStr key x acc) []

/-- `_dedupe_by_translation` of retriever.py. -/
def dedupe_by_translation (docs : List Doc) : List Doc :=
  let sorted := isortAscStr (fun d => pyLowerStr (d.metadata.pdf_name.getD "")) docs
  (sorted.foldl (fun st d =>
    let name := pyLowerStr (d.metadata.pdf_name.getD "")
    if name ∈ st.2 then st else (st.1 ++ [d], st.2 ++ [name]))
    (([], []) : List Doc × List String)).1

/-- The final hit dictionary of `retrieve` (score hardcoded to 0.0). -/
def toHit (d : Doc) : HitR :=
  ⟨d.page_content, d.metadata.pdf_name, d.metadata.page, d.metadata.span_id,
   d.metadata.relpath, d.metadata.nikaya.getD "", d.metadata.citations.getD "", 0⟩

/-- `" | ".join`. -/
def joinBar : List String → String
  | [] => ""
  | [x] => x
  | x :: xs => x ++ " | " ++ joinBar xs

/-- `plan.get("basket_hint")` as read by `retrieve`. -/
def planBasketHint (p : PlanD) : Option String := pgetStr p "basket_hint"

/-- `plan.get("targets", [])` as read by `retrieve`. -/
def planTargets (p : PlanD) : List String := (pgetList p "targets").getD []

/-- `plan.get("query_terms") or []` as read by `retrieve`. -/
def planQueries (p : PlanD) : List String := (pgetList p "query_terms").getD []

/-- The joined query string `q` of `retrieve`. -/
def planJoinedQuery (p : PlanD) : String :=
  if planQueries p = [] then "" else joinBar (planQueries p)

/-- The `original_query` of `retrieve`. -/
def planOriginalQuery (p : PlanD) : String :=
  match planQueries p with
  | [] => planJoinedQuery p
  | x :: _ => x

/-- The metadata filter of `retrieve` (`if basket_hint:` truthiness). -/
def planWhereFilter (p : PlanD) : Option String :=
  match planBasketHint p with
  | some b => if b = "" then none else some b
  | none => none

/-- The semantic phase: MMR search, falling back to plain similarity
search only on a `TypeError`. -/
def semantic_phase (B : Backend) (q : String) (fetchK : Nat) (filt : Option String) :
    Except RErr (List Doc) :=
  match B.mmr q fetchK (fetchK * 2) filt with
  | .error .typeErr => B.similarity q fetchK filt
  | r => r

/-- The fusion input: citation docs appear twice at the front when present. -/
def fuseLists (citationDocs semDocs bmDocs : List Doc) : List (List Doc) :=
  if citationDocs = [] then [semDocs, bmDocs]
  else [citationDocs, citationDocs, semDocs, bmDocs]

/-- `retrieve` of retriever.py. -/
def retrieve (plan : PlanD) (k : Nat) (B : Backend) : Except RErr (List HitR) :=
  let basketHint := planBasketHint plan
  let targetRefs := planTargets plan
  let q := planJoinedQuery plan
  let oq := planOriginalQuery plan
  let whereFilter := planWhereFilter plan
  let fetchK := k * 4
  let citationDocs := if targetRefs ≠ [] then citation_search targetRefs B.bm25Docs else []
  match semantic_phase B q fetchK whereFilter with
  | .error e => .error e
  | .ok semDocs =>
    match bm25_search B oq fetchK with
    | .error e => .error e
    | .ok bmDocs =>
      let docs0 := (reciprocal_rank_fusion (fuseLists citationDocs semDocs bmDocs) 60).take fetchK
      let widened : Except RErr (List Doc) :=
        if docs0.length < RAG_MIN_NEEDED ∧ whereFilter.isSome then
          match semantic_phase B q fetchK none with
          | .error e => .error e
          | .ok semDocs2 =>
            match bm25_search B oq fetchK with
            | .error e => .error e
            | .ok bmDocs2 =>
              .ok ((reciprocal_rank_fusion (fuseLists citationDocs semDocs2 bmDocs2) 60).take fetchK)
        else .ok docs0
      match widened with
      | .error e => .error e
      | .ok docs1 =>
        let docs2 := if docs1 = [] then docs1 else rerank B oq docs1 (k * 2)
        let scored := docs2.map (fun d => (score_bias d basketHint, d))
        let sortedDocs := (isortDescQ (fun p => p.1) scored).map (fun p => p.2)
        .ok (((dedupe_by_translation sortedDocs).take k).map toHit)

/-! ## Answer synthesizer (synthesizer.py) -/

/-- The grounding system prompt `SYS` of synthesizer.py. -/
def SYS_PROMPT : String :=
  "You are a wise and compassionate scholar of the Pāli Canon. Your goal is to not just answer questions, but to provide insightful, reflective, and thought-provoking responses based on the provided passages.\n\nGUIDELINES:\n- Freely quote from the text to illustrate your points.\n- Connect concepts and ideas from different passages to offer a deeper understanding.\n- Where appropriate, you can ask reflective questions to encourage the user to think more deeply.\n- Always cite your sources at the end of your response in the format: \x27folder/filename.pdf — p.<page>\x27.\n\nCRITICAL RULES:\n1. ONLY cite passages that appear in the Context section below.\n2. If the Context does not contain information to answer the question, say: \"The retrieved passages do not directly address this question.\"\n3. NEVER invent or paraphrase quotes that don\x27t appear verbatim in the Context.\n4. If you are uncertain, start your answer with \"Based on limited evidence...\"\n5. Do not make up teachings, suttas, or quotes that are not in the provided Context."

/-- The fixed refusal of `synthesize` when no hits were retrieved. -/
def NO_HITS_MSG : String :=
  "I couldn\x27t find relevant passages for this question in the indexed texts. Please try rephrasing your question, or check that the relevant texts are indexed."

/-- How Python renders an optional string in an f-string. -/
def showOptStr : Option String → String
  | some s => s
  | none => "None"

/-- How Python renders an optional page number in an f-string. -/
def showOptNat : Option Nat → String
  | some n => toString n
  | none => "None"

/-- `h.get("relpath") or h.get("pdf_name")` (falsy empty strings fall
through). -/
def pyOrPath (h : HitR) : Option String :=
  match h.relpath with
  | some s => if s = "" then h.pdf_name else some s
  | none => h.pdf_name

/-- Join with a separator. -/
def joinWith (sep : String) : List String → String
  | [] => ""
  | [x] => x
  | x :: xs => x ++ sep ++ joinWith sep xs

/-- `_format_context` of synthesizer.py. -/
def format_context (hits : List HitR) : String :=
  joinWith "\n\n" (hits.enum.map (fun p =>
    "[" ++ toString (p.1 + 1) ++ "] " ++ showOptStr (pyOrPath p.2) ++ " p." ++
      showOptNat p.2.page ++ "\n" ++
      String.mk ((pyStrip p.2.text).data.map (fun c => if c = '\n' then ' ' else c))))

/-- `_format_sources` of synthesizer.py. -/
def format_sources (hits : List HitR) : String :=
  let uniq := (hits.foldl (fun st h =>
    let path := pyOrPath h
    if (path, h.page) ∈ st.2 then st
    else (st.1 ++ [showOptStr path ++ " — p." ++ showOptNat h.page],
          st.2 ++ [(path, h.page)]))
    (([], []) : List String × List (Option String × Option Nat))).1
  "Sources:\n" ++ joinWith "\n" (uniq.map (fun s => "- " ++ s))

/-- The hedged partial response of `synthesize` when
`0 < len(hits) < MIN_HITS`. -/
def hedge_msg (hits : List HitR) : String :=
  "I found only " ++ toString hits.length ++
    " potentially relevant passage(s), which may not be sufficient for a complete answer. Here are the sources I found:\n\n" ++
    format_sources hits ++
    "\n\nTry rephrasing your question or using more specific terms from the Canon."

/-- `synthesize` of synthesizer.py; `llm` is the opaque generative
model (`OllamaLLM(...).invoke`). -/
def synthesize (llm : String → String) (query : String) (hits : List HitR) : String :=
  if hits = [] then NO_HITS_MSG
  else if hits.length < MIN_HITS then
    "I found only " ++ toString hits.length ++
      " potentially relevant passage(s), which may not be sufficient for a complete answer. Here are the sources I found:\n\n" ++
      format_sources hits ++
      "\n\nTry rephrasing your question or using more specific terms from the Canon."
  else
    llm (SYS_PROMPT ++ "\n\nQuestion: " ++ query ++ "\n\nContext:\n" ++
      format_context hits ++ "\n\nAnswer:") ++ "\n\n" ++ format_sources hits

/-! ## Plan-aware synthesis (target-mismatch guard) -/

/-- Case- and space-insensitive comparison key of the guard. -/
def normCaseSpace (s : String) : String :=
  String.mk ((pyLowerStr s).data.filter (fun c => c ≠ ' '))

/-- The guidance message of the target-mismatch guard. -/
def TARGET_MISMATCH_MSG : String :=
  "The retrieved passages do not mention the requested reference(s). Please narrow the query, for example by quoting the exact citation or adding the sutta name."

/-- Modelled from the spec: the plan-aware `synthesize(question, plan,
hits)` of spec section 4.5, called by grg_local.py but absent from the
available sources (src/synthesizer.py only defines the two-argument
`synthesize`).  Grounding state machine: no hits, then too few hits,
then the target-mismatch guard (plan targets present but none
appearing, case- and space-insensitively, in the texts of the top
handful of hits), then the normal generative path. -/
def synthesize_with_plan (llm : String → String) (question : String)
    (plan : PlanD) (hits : List HitR) : String :=
  if hits = [] then NO_HITS_MSG
  else if hits.length < MIN_HITS then hedge_msg hits
  else
    let targets := (pgetList plan "canonical_targets").getD []
    if targets ≠ [] ∧ targets.all (fun t =>
        (hits.take 5).all (fun h => !(substrS (normCaseSpace t) (normCaseSpace h.text)))) then
      TARGET_MISMATCH_MSG
    else
      llm (SYS_PROMPT ++ "\n\nQuestion: " ++ question ++ "\n\nContext:\n" ++
        format_context hits ++ "\n\nAnswer:") ++ "\n\n" ++ format_sources hits

/-! ## Concrete fixtures -/

/-- The nikaya lookup inside a plan's constraints. -/
def plan_nikaya (p : PlanD) : Option String :=
  alookup ((pgetDict p "constraints").getD []) "nikaya"

/-- An empty alias context (no CSV / YAML sources, rapidfuzz absent). -/
def ctxE : AliasCtx := ⟨[], [], none, 85⟩

/-- A retrieval hit whose text mentions SN 35.28. -/
def hitW : HitR :=
  ⟨"The eye is burning, forms are burning, as taught in SN 35.28.",
   some "a.pdf", some 3, some "p3_c1", some "sutta/a.pdf", "SN", "SN 35.28", 0⟩

/-- A second retrieval hit with unrelated text. -/
def hitW2 : HitR :=
  ⟨"Another passage about feelings and perception.",
   some "b.pdf", some 7, some "p7_c2", some "sutta/b.pdf", "", "", 0⟩

/-- A plan whose canonical target matches neither fixture hit. -/
def planW4 : PlanD := [("canonical_targets", PVal.list ["MN 140"])]

/-- A stored passage tagged with the citation SN 35.28. -/
def docC2 : Doc :=
  ⟨"The Fire Sermon appears in the Saḷāyatana-saṃyutta.",
   ⟨some "sn.pdf", some 12, some "p12_c1", some "sutta_pitaka/samyutta",
    some "sutta", some "sutta_pitaka/samyutta/sn.pdf", some "SN", some "SN 35.28"⟩⟩

/-- Backend for the planner/retriever key-mismatch scenario: the only
way `docC2` can surface is the citation phase. -/
def BC2 : Backend :=
  ⟨fun _ _ _ _ => .ok [], fun _ _ _ => .ok [], fun _ => .ok [0], [docC2], fun _ _ => 0⟩

/-- Backend whose BM25 phase raises a (non-TypeError) backend error. -/
def BC6bad : Backend :=
  ⟨fun _ _ _ _ => .ok [], fun _ _ _ => .ok [],
   fun _ => .error (.backend "bm25 index unavailable"), [], fun _ _ => 0⟩

/-- Backend whose MMR call raises a TypeError and whose remaining
phases succeed. -/
def BC6ok : Backend :=
  ⟨fun _ _ _ _ => .error .typeErr, fun _ _ _ => .ok [], fun _ => .ok [], [], fun _ _ => 0⟩

/-- Backend whose vector phase returns one passage. -/
def BC10 : Backend :=
  ⟨fun _ _ _ _ => .ok [docC2], fun _ _ _ => .ok [], fun _ => .ok [0], [docC2], fun _ _ => 0⟩

/-- The id-to-aliases table of the alias-resolution witness. -/
def idToW : List (String × List String) :=
  build_id_to_aliases [("SN 35.28", "Ādittapariyāya")] []

/-- Alias context built from `idToW` by `load_aliases`. -/
def ctxW7 : AliasCtx := ⟨idToW, build_alias_to_id idToW, none, 85⟩

/-- The normalized storage keys one table entry writes into
`alias_to_id` (lowercased-stripped and diacritic-stripped forms of
every alias and of the canonical id itself). -/
def groupKeys (p : String × List String) : List String :=
  (p.2 ++ [p.1]).foldr (fun a acc =>
    pyStrip (pyLowerStr a) :: strip_diacritics (pyStrip (pyLowerStr a)) :: acc) []

/-- A digit run captured by a `\\d` group of the citation patterns
(1 to 3 digit characters). -/
def DigitRun (l : List Char) : Prop :=
  l ≠ [] ∧ l.length ≤ 3 ∧ ∀ c ∈ l, isDig c = true

instance decDigitRun (l : List Char) : Decidable (DigitRun l) :=
  decidable_of_iff (l ≠ [] ∧ l.length ≤ 3 ∧ ∀ c ∈ l, isDig c = true) Iff.rfl

/-- Canonical shape of the numbered references `_extract_citations`
emits: a canonical code, a space, a 1-3 digit number, optionally a
period and a second 1-3 digit number. -/
def IsCanonRef (r : String) : Prop :=
  ∃ code ∈ nikCodes, ∃ n1 : List Char, DigitRun n1 ∧
    (r = code ++ " " ++ String.mk n1
     ∨ ∃ n2 : List Char, DigitRun n2 ∧
        r = code ++ " " ++ String.mk n1 ++ "." ++ String.mk n2)

/-! ## Association-list lemmas -/

theorem alookup_append {α : Type} (m l2 : List (String × α)) (k : String) :
    alookup (m ++ l2) k
      = (match alookup m k with
         | some v => some v
         | none => alookup l2 k) := by
  induction m with
  | nil => rfl
  | cons p tl ih =>
    rcases p with ⟨k1, v1⟩
    simp only [List.cons_append, alookup]
    split
    · rfl
    · exact ih

theorem alookup_map_overwrite_ne {α : Type} (m : List (String × α)) (k k2 : String) (v : α)
    (h : k ≠ k2) :
    alookup (m.map (fun kv => if kv.1 = k2 then (k2, v) else kv)) k = alookup m k := by
  induction m with
  | nil => rfl
  | cons p tl ih =>
    rcases p with ⟨k1, v1⟩
    simp only [List.map_cons]
    dsimp only
    by_cases hp : k1 = k2
    · rw [if_pos hp]
      simp only [alookup]
      rw [if_neg (fun hh => h hh.symm), if_neg (fun hh : k1 = k => h (hp ▸ hh ▸ rfl))]
      exact ih
    · rw [if_neg hp]
      simp only [alookup]
      split
      · rfl
      · exact ih

theorem alookup_aset_ne {α : Type} (m : List (String × α)) (k k2 : String) (v : α)
    (h : k ≠ k2) : alookup (aset m k2 v) k = alookup m k := by
  unfold aset
  split
  · exact alookup_map_overwrite_ne m k k2 v h
  · rw [alookup_append]
    cases hm : alookup m k with
    | some v2 => rfl
    | none =>
      simp only [alookup]
      rw [if_neg (fun hh => h hh.symm)]

theorem alookup_asetdefault_ne {α : Type} (m : List (String × α)) (k k2 : String) (v : α)
    (h : k ≠ k2) : alookup (asetdefault m k2 v) k = alookup m k := by
  unfold asetdefault
  split
  · rfl
  · rw [alookup_append]
    cases hm : alookup m k with
    | some v2 => rfl
    | none =>
      simp only [alookup]
      rw [if_neg (fun hh => h hh.symm)]

theorem alookup_map_overwrite_eq {α : Type} (m : List (String × α)) (k : String) (v : α)
    (hm : (alookup m k).isSome = true) :
    alookup (m.map (fun kv => if kv.1 = k then (k, v) else kv)) k = some v := by
  induction m with
  | nil => exact absurd hm (by simp [alookup])
  | cons p tl ih =>
    rcases p with ⟨k1, v1⟩
    simp only [List.map_cons]
    dsimp only
    by_cases hp : k1 = k
    · rw [if_pos hp]
      simp [alookup]
    · rw [if_neg hp]
      simp only [alookup, if_neg hp]
      refine ih ?_
      simp only [alookup, if_neg hp] at hm
      exact hm

theorem alookup_aset_eq {α : Type} (m : List (String × α)) (k : String) (v : α) :
    alookup (aset m k v) k = some v := by
  unfold aset
  split
  · next hs => exact alookup_map_overwrite_eq m k v hs
  · next hs =>
    rw [alookup_append]
    cases hm : alookup m k with
    | some v2 =>
      rw [hm] at hs
      exact absurd rfl hs
    | none => simp [alookup]

theorem plan_constraints_nikaya (qs : String) (ids : List String) :
    alookup (plan_constraints qs ids) "nikaya"
      = alookup (plan_nikaya_constraints ids) "nikaya" := by
  unfold plan_constraints
  dsimp only
  split
  · exact alookup_aset_ne _ _ _ _ (by decide)
  · split
    · exact alookup_aset_ne _ _ _ _ (by decide)
    · split
      · exact alookup_asetdefault_ne _ _ _ _ (by decide)
      · rfl

/-! ## Claim theorems (first group) -/

/-- C1: grounding state machine of the synthesizer.  With an empty hit
list `synthesize` returns the fixed refusal message; with
`0 < len(hits) < MIN_HITS` it returns the hedged partial response
(built only from the sources found via `format_sources`); in both
cases the result does not depend on the generative model `llm`, i.e.
the model is never invoked. -/
theorem synthesize_grounding_state_machine (llm llm2 : String → String) (q : String)
    (hits : List HitR) :
    synthesize llm q [] = NO_HITS_MSG
    ∧ (0 < hits.length → hits.length < MIN_HITS →
        synthesize llm q hits = hedge_msg hits
        ∧ synthesize llm q hits = synthesize llm2 q hits) := by
  constructor
  · rfl
  · intro h0 hlt
    have hne : hits ≠ [] := by
      intro h
      rw [h] at h0
      exact absurd h0 (by decide)
    constructor
    · unfold synthesize
      rw [if_neg hne, if_pos hlt]
      rfl
    · unfold synthesize
      rw [if_neg hne, if_pos hlt, if_neg hne, if_pos hlt]

theorem synthesize_grounding_state_machine_witness :
    synthesize (fun _ => "model output A") "q" [hitW] = hedge_msg [hitW]
    ∧ synthesize (fun _ => "model output A") "q" [hitW]
      = synthesize (fun _ => "model output B") "q" [hitW] :=
  (synthesize_grounding_state_machine (fun _ => "model output A")
    (fun _ => "model output B") "q" [hitW]).2 (by decide) (by decide)

/-- C2 (code bug): `plan_query` stores the detected targets under the
key `canonical_targets`, but `retrieve` reads the key `targets`; on
the planner-produced plan for "Tell me about SN 35.28" the citation
phase is therefore skipped even though `citation_search` would match
the stored passage `docC2`, and retrieval returns no hits at all. -/
theorem planner_retriever_targets_key_mismatch :
    pgetList (plan_query ctxE "Tell me about SN 35.28") "canonical_targets"
      = some ["SN 35.28"]
    ∧ planTargets (plan_query ctxE "Tell me about SN 35.28") = []
    ∧ citation_search ["SN 35.28"] BC2.bm25Docs = [docC2]
    ∧ retrieve (plan_query ctxE "Tell me about SN 35.28") 8 BC2 = .ok [] := by decide

/-- C3: separator invariance of citation extraction.  For every
code-to-number separator (space, period, colon, hyphen, none) and
every subnumber separator (period, colon, hyphen), the orthographic
variants of SN 35.28 all extract to the single normalized reference
"SN 35.28"; in particular the four spec examples do. -/
theorem extract_citations_separator_invariance :
    (List.all [" ", ".", ":", "-", ""] fun s1 =>
      List.all [".", ":", "-"] fun s2 =>
        extract_citations ("SN" ++ s1 ++ "35" ++ s2 ++ "28") == ["SN 35.28"]) = true
    ∧ extract_citations "SN 35.28" = ["SN 35.28"]
    ∧ extract_citations "SN35.28" = ["SN 35.28"]
    ∧ extract_citations "SN-35-28" = ["SN 35.28"]
    ∧ extract_citations "SN:35:28" = ["SN 35.28"] := by decide

/-- C4 (modelled from the spec): the target-mismatch guard of the
plan-aware synthesizer.  If the plan specifies canonical targets and
none of them appears (case- and space-insensitively) in the texts of
the top hits, the synthesizer returns the guidance message and never
invokes the generative model. -/
theorem synthesize_target_mismatch_guard (llm llm2 : String → String) (question : String)
    (plan : PlanD) (hits : List HitR) (tgs : List String)
    (h2 : MIN_HITS ≤ hits.length)
    (htg : pgetList plan "canonical_targets" = some tgs) (hne : tgs ≠ [])
    (hmiss : ∀ t ∈ tgs, ∀ h ∈ hits.take 5,
      substrS (normCaseSpace t) (normCaseSpace h.text) = false) :
    synthesize_with_plan llm question plan hits = TARGET_MISMATCH_MSG
    ∧ synthesize_with_plan llm question plan hits
      = synthesize_with_plan llm2 question plan hits := by
  have hne0 : hits ≠ [] := by
    intro h
    rw [h] at h2
    exact absurd h2 (by decide)
  have hlt : ¬ hits.length < MIN_HITS := Nat.not_lt.mpr h2
  have hguard : tgs ≠ [] ∧ tgs.all (fun t =>
      (hits.take 5).all (fun h => !(substrS (normCaseSpace t) (normCaseSpace h.text)))) := by
    refine ⟨hne, ?_⟩
    rw [List.all_eq_true]
    intro t ht
    rw [List.all_eq_true]
    intro h hh
    rw [hmiss t ht h hh]
    rfl
  constructor
  · unfold synthesize_with_plan
    rw [if_neg hne0, if_neg hlt]
    simp only [htg, Option.getD_some]
    rw [if_pos hguard]
  · unfold synthesize_with_plan
    rw [if_neg hne0, if_neg hlt, if_neg hne0, if_neg hlt]
    simp only [htg, Option.getD_some]
    rw [if_pos hguard, if_pos hguard]

theorem synthesize_target_mismatch_guard_witness :
    synthesize_with_plan (fun _ => "model output A") "q" planW4 [hitW, hitW2]
      = TARGET_MISMATCH_MSG :=
  (synthesize_target_mismatch_guard (fun _ => "model output A") (fun _ => "model output B")
    "q" planW4 [hitW, hitW2] ["MN 140"] (by decide) (by decide) (by decide) (by decide)).1

/-- C5: precedence of the ambiguous two-letter code.  Every
capitalization of "sn" other than the exact mixed-case form "Sn"
normalizes to the common collection "SN" (Saṃyutta Nikāya), and only
the exact input "Sn" is preserved as "Sn" (Sutta Nipāta). -/
theorem ambiguous_sn_code_precedence :
    (∀ s : String, pyLowerStr s = "sn" → s ≠ "Sn" → normalize_nikaya_token s = "SN")
    ∧ normalize_nikaya_token "Sn" = "Sn"
    ∧ normalize_nikaya_token "sn" = "SN"
    ∧ normalize_nikaya_token "SN" = "SN"
    ∧ normalize_nikaya_token "sN" = "SN" := by
  refine ⟨?_, by decide, by decide, by decide, by decide⟩
  intro s hlow hne
  have hs : s ≠ "" := by
    intro h
    rw [h] at hlow
    exact absurd hlow (by decide)
  simp [normalize_nikaya_token, hs, hne, hlow]

theorem ambiguous_sn_code_precedence_witness :
    normalize_nikaya_token "sN" = "SN" :=
  ambiguous_sn_code_precedence.1 "sN" (by decide) (by decide)

/-- C6 counterexample: a backend error in the keyword (BM25) phase is
not caught — `retrieve` propagates it to the caller instead of
returning the candidates of the remaining phases. -/
theorem retrieve_keyword_error_propagates :
    retrieve [] 8 BC6bad = .error (.backend "bm25 index unavailable") := by decide

/-- C6 (amended): `retrieve` catches only a TypeError raised by the
diversity (MMR) vector-search call, falling back to plain similarity
search for that phase; a (non-TypeError) backend error from the
keyword (BM25) phase propagates to the caller. -/
theorem retrieve_catches_only_mmr_typeerror :
    (∀ (B : Backend) (plan : PlanD) (k : Nat),
      (∀ q fk fk2 f, B.mmr q fk fk2 f = .error .typeErr) →
      (∀ q fk f, ∃ l, B.similarity q fk f = .ok l) →
      (∀ tq, ∃ sc, B.bm25GetScores tq = .ok sc) →
      ∃ hits, retrieve plan k B = .ok hits)
    ∧ (∀ (B : Backend) (plan : PlanD) (k : Nat) (msg : String) (sem : List Doc),
      semantic_phase B (planJoinedQuery plan) (k * 4) (planWhereFilter plan) = .ok sem →
      B.bm25GetScores (tokenize (planOriginalQuery plan)) = .error (.backend msg) →
      retrieve plan k B = .error (.backend msg)) := by
  constructor
  · intro B plan k hmmr hsim hbm
    obtain ⟨l1, hl1⟩ := hsim (planJoinedQuery plan) (k * 4) (planWhereFilter plan)
    obtain ⟨l2, hl2⟩ := hsim (planJoinedQuery plan) (k * 4) none
    obtain ⟨sc, hsc⟩ := hbm (tokenize (planOriginalQuery plan))
    have hsem1 : semantic_phase B (planJoinedQuery plan) (k * 4) (planWhereFilter plan)
        = .ok l1 := by
      unfold semantic_phase
      rw [hmmr, hl1]
    have hsem2 : semantic_phase B (planJoinedQuery plan) (k * 4) none = .ok l2 := by
      unfold semantic_phase
      rw [hmmr, hl2]
    have hbm1 : bm25_search B (planOriginalQuery plan) (k * 4) =
        .ok (((isortDescQ (fun i => sc.getD i 0) (List.range sc.length)).take (k * 4)).filterMap
          (fun i => if sc.getD i 0 > 0 then some (B.bm25Docs.getD i dummyDoc) else none)) := by
      unfold bm25_search
      rw [hsc]
    unfold retrieve
    dsimp only
    rw [hsem1, hbm1, hsem2]
    dsimp only
    split
    · next e heq =>
      rcases ite_eq_iff.mp heq with ⟨_, h⟩ | ⟨_, h⟩ <;> exact Except.noConfusion h
    · exact ⟨_, rfl⟩
  · intro B plan k msg sem hsem hbm
    have hbm1 : bm25_search B (planOriginalQuery plan) (k * 4)
        = .error (.backend msg) := by
      unfold bm25_search
      rw [hbm]
    unfold retrieve
    dsimp only
    rw [hsem, hbm1]

theorem retrieve_catches_only_mmr_typeerror_witness :
    (∃ hits, retrieve [] 8 BC6ok = .ok hits)
    ∧ retrieve [] 8 BC6bad = .error (.backend "bm25 index unavailable") :=
  ⟨retrieve_catches_only_mmr_typeerror.1 BC6ok [] 8 (fun _ _ _ _ => rfl)
    (fun _ _ _ => ⟨[], rfl⟩) (fun _ => ⟨[], rfl⟩),
   retrieve_catches_only_mmr_typeerror.2 BC6bad [] 8 "bm25 index unavailable" []
    (by decide) (by decide)⟩

/-- C8: collection-constraint derivation.  When `plan_query` detects
targets, the constraint derived from the first target's code maps the
minor-collection booklet codes Sn/Khp/Dhp/Thag/Thig to the umbrella
collection "KN" and each of SN/MN/DN/AN/KN to itself. -/
theorem plan_collection_constraint_derivation (ctx : AliasCtx) (q : String)
    (head : String) (t : List String) (code : String) (rest : List String)
    (hids : pgetList (plan_query ctx q) "canonical_targets" = some (head :: t))
    (hsplit : pySplit head = code :: rest) :
    (code ∈ (["Sn", "Khp", "Dhp", "Thag", "Thig"] : List String) →
      plan_nikaya (plan_query ctx q) = some "KN")
    ∧ (code ∈ (["SN", "MN", "DN", "AN", "KN"] : List String) →
      plan_nikaya (plan_query ctx q) = some code) := by
  have hids2 : plan_ids ctx (pyStrip q) = head :: t := by
    have hkey : pgetList (plan_query ctx q) "canonical_targets"
        = some (plan_ids ctx (pyStrip q)) := rfl
    rw [hkey] at hids
    exact Option.some.inj hids
  have hnik : plan_nikaya (plan_query ctx q)
      = alookup (plan_nikaya_constraints (head :: t)) "nikaya" := by
    have h0 : plan_nikaya (plan_query ctx q)
        = alookup (plan_constraints (pyStrip q) (plan_ids ctx (pyStrip q))) "nikaya" := rfl
    rw [h0, plan_constraints_nikaya, hids2]
  have hcode : (pySplit ((head :: t).headD "")).headD "" = code := by
    rw [List.headD_cons, hsplit]
    rfl
  constructor
  · intro hc
    rw [hnik]
    unfold plan_nikaya_constraints
    rw [if_pos (by simp)]
    dsimp only
    rw [hcode, if_pos hc]
    rfl
  · intro hc
    rw [hnik]
    unfold plan_nikaya_constraints
    rw [if_pos (by simp)]
    dsimp only
    rw [hcode]
    have hnb : code ∉ (["Sn", "Khp", "Dhp", "Thag", "Thig"] : List String) := by
      simp only [List.mem_cons, List.not_mem_nil, or_false] at hc ⊢
      rcases hc with rfl | rfl | rfl | rfl | rfl <;> decide
    rw [if_neg hnb, if_pos hc]
    rfl

theorem plan_collection_constraint_derivation_witness :
    plan_nikaya (plan_query ctxE "What does MN 10 say?") = some "MN" :=
  (plan_collection_constraint_derivation ctxE "What does MN 10 say?" "MN 10" [] "MN" ["10"]
    (by decide) (by decide)).2 (by decide)

/-- C10: every hit dictionary `retrieve` returns has its score field
equal to exactly 0; ranking information is conveyed by position only. -/
theorem retrieve_scores_all_zero (plan : PlanD) (k : Nat) (B : Backend) (hits : List HitR)
    (hr : retrieve plan k B = .ok hits) : ∀ h ∈ hits, h.score = 0 := by
  unfold retrieve at hr
  dsimp only at hr
  split at hr
  · exact absurd hr (by simp)
  · split at hr
    · exact absurd hr (by simp)
    · split at hr
      · exact absurd hr (by simp)
      · injection hr with hr
        subst hr
        intro h hh
        obtain ⟨d, _, rfl⟩ := List.mem_map.mp hh
        rfl

theorem retrieve_scores_all_zero_witness :
    retrieve [] 8 BC10 = .ok [toHit docC2] ∧ (toHit docC2).score = 0 :=
  ⟨by decide, retrieve_scores_all_zero [] 8 BC10 [toHit docC2] (by decide) (toHit docC2)
    (by decide)⟩

/-! ## Alias-table lemmas and claims (C7) -/

theorem mem_groupKeys_iff (p : String × List String) (k : String) :
    k ∈ groupKeys p ↔ ∃ a ∈ p.2 ++ [p.1],
      k = pyStrip (pyLowerStr a) ∨ k = strip_diacritics (pyStrip (pyLowerStr a)) := by
  unfold groupKeys
  induction p.2 ++ [p.1] with
  | nil => simp
  | cons a tl ih =>
    simp only [List.foldr_cons, List.mem_cons, ih, List.mem_cons]
    constructor
    · rintro (rfl | rfl | ⟨a2, h2, hk⟩)
      · exact ⟨a, Or.inl rfl, Or.inl rfl⟩
      · exact ⟨a, Or.inl rfl, Or.inr rfl⟩
      · exact ⟨a2, Or.inr h2, hk⟩
    · rintro ⟨a2, (rfl | h2), hk⟩
      · rcases hk with rfl | rfl
        · exact Or.inl rfl
        · exact Or.inr (Or.inl rfl)
      · exact Or.inr (Or.inr ⟨a2, h2, hk⟩)

theorem group_step_write (cid a : String) (acc : List (String × String)) (k : String)
    (h : alookup acc k = some cid ∨ k = pyStrip (pyLowerStr a)
      ∨ k = strip_diacritics (pyStrip (pyLowerStr a))) :
    alookup (aset (aset acc (pyStrip (pyLowerStr a)) cid)
      (strip_diacritics (pyStrip (pyLowerStr a))) cid) k = some cid := by
  by_cases h2 : k = strip_diacritics (pyStrip (pyLowerStr a))
  · rw [h2]
    exact alookup_aset_eq _ _ _
  · rw [alookup_aset_ne _ _ _ _ h2]
    by_cases h1 : k = pyStrip (pyLowerStr a)
    · rw [h1]
      exact alookup_aset_eq _ _ _
    · rw [alookup_aset_ne _ _ _ _ h1]
      rcases h with h | h | h
      · exact h
      · exact absurd h h1
      · exact absurd h h2

theorem group_fold_write (cid : String) (l : List String) (acc : List (String × String))
    (k : String)
    (h : alookup acc k = some cid ∨ ∃ a ∈ l, k = pyStrip (pyLowerStr a)
      ∨ k = strip_diacritics (pyStrip (pyLowerStr a))) :
    alookup (l.foldl (fun acc a => aset (aset acc (pyStrip (pyLowerStr a)) cid)
      (strip_diacritics (pyStrip (pyLowerStr a))) cid) acc) k = some cid := by
  induction l generalizing acc with
  | nil =>
    rcases h with h | ⟨a, ha, _⟩
    · exact h
    · exact absurd ha (List.not_mem_nil a)
  | cons a tl ih =>
    simp only [List.foldl_cons]
    apply ih
    rcases h with h | ⟨a2, ha2, hk⟩
    · exact Or.inl (group_step_write cid a acc k (Or.inl h))
    · rcases List.mem_cons.mp ha2 with rfl | ha2tl
      · exact Or.inl (group_step_write cid a2 acc k (Or.inr hk))
      · exact Or.inr ⟨a2, ha2tl, hk⟩

theorem group_fold_preserve (cid : String) (l : List String) (acc : List (String × String))
    (k : String)
    (hk : ∀ a ∈ l, k ≠ pyStrip (pyLowerStr a) ∧ k ≠ strip_diacritics (pyStrip (pyLowerStr a))) :
    alookup (l.foldl (fun acc a => aset (aset acc (pyStrip (pyLowerStr a)) cid)
      (strip_diacritics (pyStrip (pyLowerStr a))) cid) acc) k = alookup acc k := by
  induction l generalizing acc with
  | nil => rfl
  | cons a tl ih =>
    simp only [List.foldl_cons]
    rw [ih _ (fun a2 h2 => hk a2 (List.mem_cons_of_mem a h2))]
    obtain ⟨h1, h2⟩ := hk a (List.mem_cons_self a tl)
    rw [alookup_aset_ne _ _ _ _ h2, alookup_aset_ne _ _ _ _ h1]

theorem not_mem_groupKeys (p : String × List String) (k : String)
    (h : k ∉ groupKeys p) :
    ∀ a ∈ p.2 ++ [p.1], k ≠ pyStrip (pyLowerStr a)
      ∧ k ≠ strip_diacritics (pyStrip (pyLowerStr a)) := by
  intro a ha
  constructor
  · intro hk
    exact h ((mem_groupKeys_iff p k).mpr ⟨a, ha, Or.inl hk⟩)
  · intro hk
    exact h ((mem_groupKeys_iff p k).mpr ⟨a, ha, Or.inr hk⟩)

theorem build_fold_lookup (cid k : String) (rest : List (String × List String))
    (acc : List (String × String))
    (hstart : alookup acc k = some cid ∨ ∃ p ∈ rest, p.1 = cid ∧ k ∈ groupKeys p)
    (hdisj : ∀ p ∈ rest, p.1 = cid ∨ k ∉ groupKeys p) :
    alookup (rest.foldl (fun acc p => (p.2 ++ [p.1]).foldl
      (fun acc a => aset (aset acc (pyStrip (pyLowerStr a)) p.1)
        (strip_diacritics (pyStrip (pyLowerStr a))) p.1) acc) acc) k = some cid := by
  induction rest generalizing acc with
  | nil =>
    rcases hstart with h | ⟨p, hp, _⟩
    · exact h
    · exact absurd hp (List.not_mem_nil p)
  | cons p tl ih =>
    simp only [List.foldl_cons]
    refine ih _ ?_ (fun p2 h2 => hdisj p2 (List.mem_cons_of_mem p h2))
    rcases hstart with hacc | ⟨p2, hp2, hcid2, hk2⟩
    · rcases hdisj p (List.mem_cons_self p tl) with hcid | hnot
      · refine Or.inl ?_
        rw [← hcid] at hacc ⊢
        exact group_fold_write p.1 _ acc k (Or.inl hacc)
      · exact Or.inl ((group_fold_preserve p.1 _ acc k (not_mem_groupKeys p k hnot)).trans hacc)
    · rcases List.mem_cons.mp hp2 with rfl | hp2tl
      · refine Or.inl ?_
        rw [← hcid2]
        exact group_fold_write p2.1 _ acc k
          (Or.inr ((mem_groupKeys_iff p2 k).mp hk2))
      · rcases hdisj p (List.mem_cons_self p tl) with hcid | hnot
        · by_cases hkp : k ∈ groupKeys p
          · refine Or.inl ?_
            rw [← hcid]
            exact group_fold_write p.1 _ acc k
              (Or.inr ((mem_groupKeys_iff p k).mp hkp))
          · exact Or.inr ⟨p2, hp2tl, hcid2, hk2⟩
        · exact Or.inr ⟨p2, hp2tl, hcid2, hk2⟩

theorem dedup_fold_mono (l : List String) (acc : List String) (a : String) (ha : a ∈ acc) :
    a ∈ l.foldl (fun acc cid => if cid ∈ acc then acc else acc ++ [cid]) acc := by
  induction l generalizing acc with
  | nil => exact ha
  | cons x tl ih =>
    simp only [List.foldl_cons]
    apply ih
    split
    · exact ha
    · exact List.mem_append_left _ ha

theorem dedup_fold_mem (l : List String) (acc : List String) (a : String) (ha : a ∈ l) :
    a ∈ l.foldl (fun acc cid => if cid ∈ acc then acc else acc ++ [cid]) acc := by
  induction l generalizing acc with
  | nil => exact absurd ha (List.not_mem_nil a)
  | cons x tl ih =>
    simp only [List.foldl_cons]
    rcases List.mem_cons.mp ha with rfl | htl
    · apply dedup_fold_mono
      split
      · next hmem => exact hmem
      · exact List.mem_append_right _ (List.mem_singleton_self a)
    · exact ih _ htl

theorem exact_pass_mono (qLc qPlain : String) (l : List (String × String))
    (acc : List String) (a : String) (ha : a ∈ acc) :
    a ∈ l.foldl (fun acc kv =>
      if substrS kv.1 qLc ∨ substrS kv.1 qPlain then
        (if kv.2 ∈ acc then acc else acc ++ [kv.2])
      else acc) acc := by
  induction l generalizing acc with
  | nil => exact ha
  | cons x tl ih =>
    simp only [List.foldl_cons]
    apply ih
    split
    · split
      · exact ha
      · exact List.mem_append_left _ ha
    · exact ha

theorem exact_pass_mem (qLc qPlain : String) (l : List (String × String))
    (acc : List String) (k cid : String) (hm : (k, cid) ∈ l)
    (hsub : substrS k qLc = true ∨ substrS k qPlain = true) :
    cid ∈ l.foldl (fun acc kv =>
      if substrS kv.1 qLc ∨ substrS kv.1 qPlain then
        (if kv.2 ∈ acc then acc else acc ++ [kv.2])
      else acc) acc := by
  induction l generalizing acc with
  | nil => exact absurd hm (List.not_mem_nil _)
  | cons x tl ih =>
    simp only [List.foldl_cons]
    rcases List.mem_cons.mp hm with rfl | htl
    · apply exact_pass_mono
      rw [if_pos (by simpa using hsub)]
      split
      · next hmem => exact hmem
      · exact List.mem_append_right _ (List.mem_singleton_self cid)
    · exact ih _ htl

theorem plan_ids_resolution (ctx : AliasCtx) (q k cid : String)
    (hm : (k, cid) ∈ ctx.aliasToId)
    (hsub : substrS k (pyLowerStr (pyStrip q)) = true) :
    cid ∈ plan_ids ctx (pyStrip q) := by
  unfold plan_ids
  apply dedup_fold_mem
  unfold plan_alias_ids
  dsimp only
  apply dedup_fold_mono
  exact exact_pass_mem _ _ _ _ k cid hm (Or.inl hsub)

/-- C7 counterexample: `alias_to_id` is built by plain dict
assignment, so when two entries with different canonical ids share a
normalized alias key, the alias of the earlier entry ends up mapping
to the later id — refuting the claim that every alias maps to its own
canonical id for every table. -/
theorem alias_to_id_overwrite_collision :
    ("A 1", ["x"]) ∈ (load_aliases [("A 1", "x"), ("B 2", "x")] []).1
    ∧ alookup (load_aliases [("A 1", "x"), ("B 2", "x")] []).2 "x" = some "B 2"
    ∧ ("B 2" : String) ≠ "A 1" := by decide

/-- C7 (amended): when no two entries with different canonical ids
share a normalized storage key, every alias and the canonical id
itself are stored in `alias_to_id` under both the lowercased-stripped
form and its diacritic-stripped variant, all mapping to the canonical
id; and a question containing a stored key of a known alias resolves
to that id through the exact lookup path of `plan_query`. -/
theorem alias_storage_and_diacritic_resolution :
    (∀ (idTo : List (String × List String)),
      (∀ p1 ∈ idTo, ∀ p2 ∈ idTo, p1.1 = p2.1 ∨ ∀ k ∈ groupKeys p1, k ∉ groupKeys p2) →
      ∀ p ∈ idTo, ∀ a ∈ p.2 ++ [p.1],
        alookup (build_alias_to_id idTo) (pyStrip (pyLowerStr a)) = some p.1
        ∧ alookup (build_alias_to_id idTo)
            (strip_diacritics (pyStrip (pyLowerStr a))) = some p.1)
    ∧ (∀ (ctx : AliasCtx) (q k cid : String),
      (k, cid) ∈ ctx.aliasToId →
      substrS k (pyLowerStr (pyStrip q)) = true →
      cid ∈ plan_ids ctx (pyStrip q)) := by
  constructor
  · intro idTo hdisj p hp a ha
    have hd2 : ∀ p2 ∈ idTo, p2.1 = p.1 ∨ ∀ k ∈ groupKeys p, k ∉ groupKeys p2 := by
      intro p2 hp2
      rcases hdisj p hp p2 hp2 with h | h
      · exact Or.inl h.symm
      · exact Or.inr h
    constructor
    · have hk : pyStrip (pyLowerStr a) ∈ groupKeys p :=
        (mem_groupKeys_iff p _).mpr ⟨a, ha, Or.inl rfl⟩
      refine build_fold_lookup p.1 _ idTo [] (Or.inr ⟨p, hp, rfl, hk⟩) ?_
      intro p2 hp2
      rcases hd2 p2 hp2 with h | h
      · exact Or.inl h
      · exact Or.inr (h _ hk)
    · have hk : strip_diacritics (pyStrip (pyLowerStr a)) ∈ groupKeys p :=
        (mem_groupKeys_iff p _).mpr ⟨a, ha, Or.inr rfl⟩
      refine build_fold_lookup p.1 _ idTo [] (Or.inr ⟨p, hp, rfl, hk⟩) ?_
      intro p2 hp2
      rcases hd2 p2 hp2 with h | h
      · exact Or.inl h
      · exact Or.inr (h _ hk)
  · exact fun ctx q k cid hm hsub => plan_ids_resolution ctx q k cid hm hsub

theorem alias_storage_and_diacritic_resolution_witness :
    alookup (build_alias_to_id idToW) "adittapariyaya" = some "SN 35.28"
    ∧ "SN 35.28" ∈ plan_ids ctxW7 (pyStrip "what is adittapariyaya about") := by
  constructor
  · have h := (alias_storage_and_diacritic_resolution.1 idToW (by decide)
      ("SN 35.28", ["Ādittapariyāya"]) (by decide) "Ādittapariyāya"
      (by decide)).2
    have e : strip_diacritics (pyStrip (pyLowerStr "Ādittapariyāya")) = "adittapariyaya" := by
      decide
    rw [e] at h
    exact h
  · exact alias_storage_and_diacritic_resolution.2 ctxW7 "what is adittapariyaya about"
      "adittapariyaya" "SN 35.28" (by decide) (by decide)

theorem isDig_not_isSp (c : Char) (h : isDig c = true) : isSp c = false := by
  simp only [isDig, decide_eq_true_eq] at h
  simp only [isSp, decide_eq_false_iff_not]
  rintro (rfl | rfl | rfl | rfl | rfl | rfl) <;> revert h <;> decide

theorem isDig_not_isPunctSep (c : Char) (h : isDig c = true) : isPunctSep c = false := by
  simp only [isDig, decide_eq_true_eq] at h
  simp only [isPunctSep, decide_eq_false_iff_not]
  rintro (rfl | rfl | rfl) <;> revert h <;> decide

theorem takeWhile_all_append (p : Char → Bool) (l rest : List Char)
    (hl : ∀ c ∈ l, p c = true) :
    (l ++ rest).takeWhile p = l ++ rest.takeWhile p := by
  induction l with
  | nil => rfl
  | cons c tl ih =>
    simp only [List.cons_append, List.takeWhile_cons,
      hl c (List.mem_cons_self c tl), if_true]
    rw [ih (fun c2 h2 => hl c2 (List.mem_cons_of_mem c h2))]

theorem takeWhile_stop (p : Char → Bool) (c : Char) (l : List Char)
    (hc : p c = false) : (c :: l).takeWhile p = [] := by
  simp [List.takeWhile_cons, hc]

theorem dropWhile_stop (p : Char → Bool) (c : Char) (l : List Char)
    (hc : p c = false) : (c :: l).dropWhile p = c :: l := by
  simp [List.dropWhile_cons, hc]

theorem digitrun_head (n : List Char) (h : DigitRun n) :
    ∃ d tl, n = d :: tl ∧ isDig d = true := by
  obtain ⟨hne, _, hd⟩ := h
  cases n with
  | nil => exact absurd rfl hne
  | cons d tl => exact ⟨d, tl, rfl, hd d (List.mem_cons_self d tl)⟩

theorem dropSep1_sp_digit (d : Char) (tl : List Char) (hd : isDig d = true) :
    dropSep1 (' ' :: d :: tl) = d :: tl := by
  have hds := isDig_not_isSp d hd
  have hdp := isDig_not_isPunctSep d hd
  unfold dropSep1
  rw [List.dropWhile_cons, if_pos (by decide), dropWhile_stop _ _ _ hds]
  dsimp only
  rw [hdp]
  simp only [Bool.false_eq_true, if_false]
  exact dropWhile_stop _ _ _ hds

theorem digitrun_take_all (n : List Char) (h : DigitRun n) :
    n.takeWhile isDig = n := by
  have := takeWhile_all_append isDig n [] h.2.2
  simpa using this

theorem digitrun_len_ok (n : List Char) (h : DigitRun n) :
    ¬(n.length = 0 ∨ n.length > 3) := by
  obtain ⟨hne, hlen, _⟩ := h
  push_neg
  exact ⟨by simpa using hne, hlen⟩

theorem nikNum2_dot (n2 : List Char) (h2 : DigitRun n2) :
    nikNum2 ('.' :: n2) = some (n2, []) := by
  obtain ⟨d2, t2, rfl, hd2⟩ := digitrun_head n2 h2
  have hds2 := isDig_not_isSp d2 hd2
  unfold nikNum2
  rw [dropWhile_stop _ _ _ (by decide)]
  dsimp only
  rw [if_pos (by decide), dropWhile_stop _ _ _ hds2, digitrun_take_all _ h2,
    if_neg (digitrun_len_ok _ h2)]
  simp [bAfter]

theorem numTail_sp_dot (n1 n2 : List Char) (h1 : DigitRun n1) (h2 : DigitRun n2) :
    numTail (' ' :: (n1 ++ '.' :: n2)) = some (n1, some n2, []) := by
  obtain ⟨d1, t1, rfl, hd1⟩ := digitrun_head n1 h1
  have hsep : dropSep1 (' ' :: (d1 :: t1 ++ '.' :: n2)) = d1 :: t1 ++ '.' :: n2 := by
    have := dropSep1_sp_digit d1 (t1 ++ '.' :: n2) hd1
    simpa using this
  have htw : (d1 :: t1 ++ '.' :: n2).takeWhile isDig = d1 :: t1 := by
    rw [takeWhile_all_append _ _ _ h1.2.2, takeWhile_stop _ _ _ (by decide),
      List.append_nil]
  have hdrop : (d1 :: t1 ++ '.' :: n2).drop (d1 :: t1).length = '.' :: n2 :=
    List.drop_left _ _
  simp only [numTail]
  rw [hsep, htw, if_neg (digitrun_len_ok _ h1), hdrop, nikNum2_dot n2 h2]

theorem numTail_sp (n1 : List Char) (h1 : DigitRun n1) :
    numTail (' ' :: n1) = some (n1, none, []) := by
  obtain ⟨d1, t1, rfl, hd1⟩ := digitrun_head n1 h1
  have hsep : dropSep1 (' ' :: (d1 :: t1)) = d1 :: t1 := dropSep1_sp_digit d1 t1 hd1
  have hdrop : (d1 :: t1).drop (d1 :: t1).length = [] := by simp
  simp only [numTail]
  rw [hsep, digitrun_take_all _ h1, if_neg (digitrun_len_ok _ h1), hdrop]
  have hnil : nikNum2 ([] : List Char) = none := rfl
  rw [hnil]
  simp [bAfter]

theorem nikMatchAt_canon_dot (code : String) (hc : code ∈ nikCodes) (n1 n2 : List Char)
    (h1 : DigitRun n1) (h2 : DigitRun n2) :
    nikMatchAt (code.data ++ ' ' :: (n1 ++ '.' :: n2))
      = some (⟨code.data, n1, some n2⟩, []) := by
  have ht := numTail_sp_dot n1 n2 h1 h2
  fin_cases hc <;>
    simp +decide [nikMatchAt, tryAlts, caselessStrip, nikCodes, ht]

theorem nikMatchAt_canon (code : String) (hc : code ∈ nikCodes) (n1 : List Char)
    (h1 : DigitRun n1) :
    nikMatchAt (code.data ++ ' ' :: n1) = some (⟨code.data, n1, none⟩, []) := by
  have ht := numTail_sp n1 h1
  fin_cases hc <;>
    simp +decide [nikMatchAt, tryAlts, caselessStrip, nikCodes, ht]

theorem scanWith_nil {γ : Type} (M : List Char → Option (γ × List Char))
    (fuel : Nat) (pw : Bool) : scanWith M fuel pw [] = [] := by
  cases fuel <;> rfl

theorem scanWith_match_head {γ : Type} (M : List Char → Option (γ × List Char))
    (fuel : Nat) (c : Char) (cs : List Char) (g : γ)
    (h : M (c :: cs) = some (g, [])) :
    scanWith M (fuel + 1) false (c :: cs) = [g] := by
  simp [scanWith, h, scanWith_nil]

theorem normalize_canon_self (code : String) (hc : code ∈ nikCodes) :
    normalize_nikaya_token code = code := by
  fin_cases hc <;> decide

theorem mem_insortStr (a x : String) (l : List String) :
    a ∈ insortStr x l ↔ a = x ∨ a ∈ l := by
  induction l with
  | nil => simp [insortStr]
  | cons y ys ih =>
    unfold insortStr
    split
    · simp
    · simp only [List.mem_cons, ih]
      tauto

theorem mem_isortStr (a : String) (l : List String) :
    a ∈ isortStr l ↔ a ∈ l := by
  induction l with
  | nil => simp [isortStr]
  | cons x xs ih =>
    unfold isortStr
    simp only [List.foldr_cons]
    rw [mem_insortStr]
    unfold isortStr at ih
    simp [ih]

theorem mem_dedupL_of_mem (a : String) (l : List String) (ha : a ∈ l) :
    a ∈ dedupL l := dedup_fold_mem l [] a ha

theorem dedup_fold_subset (l : List String) (acc : List String) (a : String)
    (ha : a ∈ l.foldl (fun acc x => if x ∈ acc then acc else acc ++ [x]) acc) :
    a ∈ acc ∨ a ∈ l := by
  induction l generalizing acc with
  | nil => exact Or.inl ha
  | cons x tl ih =>
    simp only [List.foldl_cons] at ha
    rcases ih _ ha with h | h
    · revert h
      split
      · exact fun h => Or.inl h
      · intro h
        rcases List.mem_append.mp h with h | h
        · exact Or.inl h
        · exact Or.inr (List.mem_cons.mpr (Or.inl (List.mem_singleton.mp h)))
    · exact Or.inr (List.mem_cons_of_mem x h)

theorem mem_of_mem_dedupL (a : String) (l : List String) (ha : a ∈ dedupL l) :
    a ∈ l := by
  rcases dedup_fold_subset l [] a ha with h | h
  · exact absurd h (List.not_mem_nil a)
  · exact h

theorem str_data_append (s t : String) : (s ++ t).data = s.data ++ t.data := rfl

theorem str_append_empty (s : String) : s ++ "" = s := by
  cases s with
  | mk d =>
    show String.mk (d ++ []) = String.mk d
    rw [List.append_nil]

theorem nikCodes_data_ne_nil (code : String) (hc : code ∈ nikCodes) :
    code.data ≠ [] := by
  fin_cases hc <;> decide

theorem reextract_canon (r : String) (h : IsCanonRef r) : r ∈ extract_citations r := by
  obtain ⟨code, hc, n1, h1, hshape⟩ := h
  obtain ⟨c, cs, hcons⟩ : ∃ c cs, code.data = c :: cs := by
    cases hd : code.data with
    | nil => exact absurd hd (nikCodes_data_ne_nil code hc)
    | cons c cs => exact ⟨c, cs, rfl⟩
  have hmem : r ∈ nik_citations r := by
    rcases hshape with rfl | ⟨n2, h2, rfl⟩
    · have hdata : (code ++ " " ++ String.mk n1).data = c :: (cs ++ ' ' :: n1) := by
        rw [str_data_append, str_data_append, hcons]
        simp
      have hm : nikMatchAt (c :: (cs ++ ' ' :: n1)) = some (⟨code.data, n1, none⟩, []) := by
        have hthis := nikMatchAt_canon code hc n1 h1
        have harg : code.data ++ ' ' :: n1 = c :: (cs ++ ' ' :: n1) := by
          rw [hcons]
          rfl
        rw [harg] at hthis
        exact hthis
      unfold nik_citations
      rw [hdata]
      rw [show (c :: (cs ++ ' ' :: n1)).length = (cs ++ ' ' :: n1).length + 1 from rfl]
      rw [scanWith_match_head _ _ _ _ _ hm]
      have hcite : nik_cite ⟨code.data, n1, none⟩ = code ++ " " ++ String.mk n1 := by
        unfold nik_cite
        show normalize_nikaya_token code ++ " " ++ String.mk n1 ++ "" = _
        rw [str_append_empty, normalize_canon_self code hc]
      rw [List.map_cons, List.map_nil, hcite]
      exact List.mem_singleton_self _
    · have hdata : (code ++ " " ++ String.mk n1 ++ "." ++ String.mk n2).data
          = c :: (cs ++ ' ' :: (n1 ++ '.' :: n2)) := by
        simp only [str_data_append, hcons]
        simp
      have hm : nikMatchAt (c :: (cs ++ ' ' :: (n1 ++ '.' :: n2)))
          = some (⟨code.data, n1, some n2⟩, []) := by
        have hthis := nikMatchAt_canon_dot code hc n1 n2 h1 h2
        have harg : code.data ++ ' ' :: (n1 ++ '.' :: n2)
            = c :: (cs ++ ' ' :: (n1 ++ '.' :: n2)) := by
          rw [hcons]
          rfl
        rw [harg] at hthis
        exact hthis
      unfold nik_citations
      rw [hdata]
      rw [show (c :: (cs ++ ' ' :: (n1 ++ '.' :: n2))).length
        = (cs ++ ' ' :: (n1 ++ '.' :: n2)).length + 1 from rfl]
      rw [scanWith_match_head _ _ _ _ _ hm]
      have hcite : nik_cite ⟨code.data, n1, some n2⟩
          = code ++ " " ++ String.mk n1 ++ "." ++ String.mk n2 := by
        unfold nik_cite
        show normalize_nikaya_token code ++ " " ++ String.mk n1 ++ ("." ++ String.mk n2) = _
        rw [normalize_canon_self code hc]
        apply congrArg String.mk
        simp [str_data_append]
      rw [List.map_cons, List.map_nil, hcite]
      exact List.mem_singleton_self _
  have hne : r ≠ "" := by
    intro hr
    rw [hr] at hmem
    exact absurd hmem (by decide)
  unfold extract_citations
  rw [if_neg hne]
  exact (mem_isortStr _ _).mpr (mem_dedupL_of_mem _ _
    (List.mem_append_left _ (List.mem_append_left _
      (List.mem_append_left _ (List.mem_append_left _ hmem)))))

theorem takeWhile_mem (p : Char → Bool) (l : List Char) :
    ∀ c ∈ l.takeWhile p, p c = true := by
  induction l with
  | nil => intro c hc; exact absurd hc (List.not_mem_nil c)
  | cons x tl ih =>
    intro c hc
    rw [List.takeWhile_cons] at hc
    by_cases hx : p x = true
    · rw [if_pos hx] at hc
      rcases List.mem_cons.mp hc with rfl | h
      · exact hx
      · exact ih c h
    · rw [if_neg hx] at hc
      exact absurd hc (List.not_mem_nil c)

theorem digitrun_of_guard (l : List Char)
    (hg : ¬((l.takeWhile isDig).length = 0 ∨ (l.takeWhile isDig).length > 3)) :
    DigitRun (l.takeWhile isDig) := by
  push_neg at hg
  refine ⟨?_, hg.2, takeWhile_mem isDig l⟩
  intro h
  rw [h] at hg
  exact hg.1 rfl

theorem nikNum2_spec (r n2 rest : List Char) (h : nikNum2 r = some (n2, rest)) :
    DigitRun n2 := by
  unfold nikNum2 at h
  dsimp only at h
  split at h
  · split at h
    · split at h
      · exact absurd h (by simp)
      · split at h
        · injection h with h
          rw [Prod.mk.injEq] at h
          obtain ⟨h1, h2⟩ := h
          subst h1
          next hg _ => exact digitrun_of_guard _ hg
        · exact absurd h (by simp)
    · exact absurd h (by simp)
  · exact absurd h (by simp)

theorem numTail_spec (r n1 : List Char) (n2o : Option (List Char)) (rest : List Char)
    (h : numTail r = some (n1, n2o, rest)) :
    DigitRun n1 ∧ ∀ n2, n2o = some n2 → DigitRun n2 := by
  unfold numTail at h
  dsimp only at h
  split at h
  · exact absurd h (by simp)
  · next hg =>
    split at h
    · next n2v restv hnn =>
      injection h with h
      rw [Prod.mk.injEq, Prod.mk.injEq] at h
      obtain ⟨h1, h2, h3⟩ := h
      subst h1
      refine ⟨digitrun_of_guard _ hg, ?_⟩
      intro n2 hsome
      rw [← h2] at hsome
      injection hsome with hsome
      rw [← hsome]
      exact nikNum2_spec _ _ _ hnn
    · split at h
      · injection h with h
        rw [Prod.mk.injEq, Prod.mk.injEq] at h
        obtain ⟨h1, h2, h3⟩ := h
        subst h1
        refine ⟨digitrun_of_guard _ hg, ?_⟩
        intro n2 hsome
        rw [← h2] at hsome
        exact absurd hsome (by simp)
      · exact absurd h (by simp)

theorem caselessStrip_spec (alt s m r : List Char)
    (h : caselessStrip alt s = some (m, r)) :
    m.map pyLower = alt.map pyLower := by
  induction alt generalizing s m r with
  | nil =>
    unfold caselessStrip at h
    injection h with h
    rw [Prod.mk.injEq] at h
    rw [← h.1]
  | cons a as ih =>
    cases s with
    | nil => exact absurd h (by simp [caselessStrip])
    | cons c cs =>
      unfold caselessStrip at h
      split at h
      · next hcl =>
        split at h
        · next m2 r2 hrec =>
          injection h with h
          rw [Prod.mk.injEq] at h
          rw [← h.1]
          simp only [List.map_cons, hcl]
          rw [ih cs m2 r2 hrec]
        · exact absurd h (by simp)
      · exact absurd h (by simp)

theorem tryAlts_spec {γ : Type} (alts : List (List Char)) (s : List Char)
    (k : List Char → List Char → Option γ) (v : γ)
    (h : tryAlts alts s k = some v) :
    ∃ a ∈ alts, ∃ m r, caselessStrip a s = some (m, r) ∧ k m r = some v := by
  induction alts with
  | nil => exact absurd h (by simp [tryAlts])
  | cons a rest ih =>
    unfold tryAlts at h
    split at h
    · next m r hstrip =>
      split at h
      · next v2 hk =>
        injection h with h
        subst h
        exact ⟨a, List.mem_cons_self a rest, m, r, hstrip, hk⟩
      · obtain ⟨a2, ha2, m2, r2, hs2, hk2⟩ := ih h
        exact ⟨a2, List.mem_cons_of_mem a ha2, m2, r2, hs2, hk2⟩
    · obtain ⟨a2, ha2, m2, r2, hs2, hk2⟩ := ih h
      exact ⟨a2, List.mem_cons_of_mem a ha2, m2, r2, hs2, hk2⟩

theorem scanWith_spec {γ : Type} (M : List Char → Option (γ × List Char)) :
    ∀ (fuel : Nat) (pw : Bool) (s : List Char) (g : γ), g ∈ scanWith M fuel pw s →
    ∃ s1 r1, M s1 = some (g, r1) := by
  intro fuel
  induction fuel with
  | zero => intro pw s g h; exact absurd h (by simp [scanWith])
  | succ n ih =>
    intro pw s g h
    cases s with
    | nil => exact absurd h (by simp [scanWith])
    | cons c cs =>
      unfold scanWith at h
      split at h
      · exact ih _ _ _ h
      · split at h
        · next g2 rest hM =>
          rcases List.mem_cons.mp h with rfl | h2
          · exact ⟨c :: cs, rest, hM⟩
          · exact ih _ _ _ h2
        · exact ih _ _ _ h

theorem nikMatchAt_spec (s : List Char) (g : CGroups) (rest : List Char)
    (h : nikMatchAt s = some (g, rest)) :
    (∃ a ∈ nikCodes, g.raw.map pyLower = a.data.map pyLower)
    ∧ DigitRun g.n1 ∧ ∀ n2, g.n2 = some n2 → DigitRun n2 := by
  unfold nikMatchAt at h
  obtain ⟨ad, had, m, r, hstrip, hk⟩ := tryAlts_spec _ _ _ _ h
  obtain ⟨a, ha, hadata⟩ := List.mem_map.mp had
  cases hnt : numTail r with
  | none => rw [hnt] at hk; exact absurd hk (by simp)
  | some val =>
    obtain ⟨n1, n2o, rest2⟩ := val
    rw [hnt] at hk
    injection hk with hk
    rw [Prod.mk.injEq] at hk
    obtain ⟨hg, _⟩ := hk
    subst hg
    obtain ⟨hd1, hd2⟩ := numTail_spec r n1 n2o rest2 hnt
    refine ⟨⟨a, ha, ?_⟩, hd1, hd2⟩
    rw [caselessStrip_spec ad s m r hstrip, hadata]

theorem normalize_canon (raw : List Char)
    (h : ∃ a ∈ nikCodes, raw.map pyLower = a.data.map pyLower) :
    normalize_nikaya_token (String.mk raw) ∈ nikCodes := by
  obtain ⟨a, ha, hl⟩ := h
  have hlow : pyLowerStr (String.mk raw) = pyLowerStr a := congrArg String.mk hl
  by_cases hSn : String.mk raw = "Sn"
  · rw [hSn]
    decide
  · have hne : String.mk raw ≠ "" := by
      intro hemp
      have hdat : raw = [] := congrArg String.data hemp
      rw [hdat] at hl
      fin_cases ha <;> exact absurd hl (by decide)
    unfold normalize_nikaya_token
    rw [if_neg hne, if_neg hSn]
    dsimp only
    rw [hlow]
    by_cases hsn : pyLowerStr a = "sn"
    · rw [if_pos hsn]
      decide
    · rw [if_neg hsn]
      obtain ⟨m, hm, hmem⟩ :
          ∃ m, alookup NIKAYA_ABBREV (pyLowerStr a) = some m ∧ m ∈ nikCodes := by
        clear hl hlow hsn
        fin_cases ha <;> exact ⟨_, rfl, by decide⟩
      rw [hm]
      exact hmem

theorem str_append_assoc (a b c : String) : a ++ b ++ c = a ++ (b ++ c) := by
  rcases a with ⟨da⟩
  rcases b with ⟨db⟩
  rcases c with ⟨dc⟩
  show String.mk (da ++ db ++ dc) = String.mk (da ++ (db ++ dc))
  rw [List.append_assoc]

theorem nik_cite_canon (g : CGroups)
    (hraw : ∃ a ∈ nikCodes, g.raw.map pyLower = a.data.map pyLower)
    (h1 : DigitRun g.n1) (h2 : ∀ n2, g.n2 = some n2 → DigitRun n2) :
    IsCanonRef (nik_cite g) := by
  refine ⟨normalize_nikaya_token (String.mk g.raw), normalize_canon g.raw hraw,
    g.n1, h1, ?_⟩
  unfold nik_cite
  cases hn : g.n2 with
  | none =>
    left
    exact str_append_empty _
  | some n2 =>
    right
    exact ⟨n2, h2 n2 hn, (str_append_assoc _ _ _).symm⟩

theorem bookSub_spec (r n2 rest : List Char) (h : bookSub r = some (n2, rest)) :
    DigitRun n2 := by
  unfold bookSub at h
  split at h
  · dsimp only at h
    split at h
    · split at h
      · exact absurd h (by simp)
      · split at h
        · injection h with h
          rw [Prod.mk.injEq] at h
          obtain ⟨h1, h2⟩ := h
          subst h1
          next hg _ => exact digitrun_of_guard _ hg
        · exact absurd h (by simp)
    · exact absurd h (by simp)
  · exact absurd h (by simp)

theorem bookAfterName_spec (m r : List Char) (g : CGroups) (rest : List Char)
    (h : bookAfterName m r = some (g, rest)) :
    g.raw = m ∧ DigitRun g.n1 ∧ ∀ n2, g.n2 = some n2 → DigitRun n2 := by
  unfold bookAfterName at h
  split at h
  · exact absurd h (by simp)
  · dsimp only at h
    split at h
    · exact absurd h (by simp)
    · next hg =>
      split at h
      · next n2v restv hbs =>
        injection h with h
        rw [Prod.mk.injEq] at h
        obtain ⟨h1, h2⟩ := h
        rw [← h1]
        refine ⟨rfl, digitrun_of_guard _ hg, ?_⟩
        intro n2 hsome
        injection hsome with hsome
        rw [← hsome]
        exact bookSub_spec _ _ _ hbs
      · split at h
        · injection h with h
          rw [Prod.mk.injEq] at h
          obtain ⟨h1, h2⟩ := h
          rw [← h1]
          refine ⟨rfl, digitrun_of_guard _ hg, ?_⟩
          intro n2 hsome
          exact Option.noConfusion hsome
        · exact absurd h (by simp)

theorem bookMatchAt_spec (s : List Char) (g : CGroups) (rest : List Char)
    (h : bookMatchAt s = some (g, rest)) :
    (∃ a ∈ bookAlts, g.raw.map pyLower = a.data.map pyLower)
    ∧ DigitRun g.n1 ∧ ∀ n2, g.n2 = some n2 → DigitRun n2 := by
  unfold bookMatchAt at h
  obtain ⟨ad, had, m, r, hstrip, hk⟩ := tryAlts_spec _ _ _ _ h
  obtain ⟨a, ha, hadata⟩ := List.mem_map.mp had
  obtain ⟨hrg, h1, h2⟩ := bookAfterName_spec m r g rest hk
  refine ⟨⟨a, ha, ?_⟩, h1, h2⟩
  rw [hrg, caselessStrip_spec ad s m r hstrip, hadata]

theorem fullAfterName_spec (m r : List Char) (g : CGroups) (rest : List Char)
    (h : fullAfterName m r = some (g, rest)) :
    g.raw = m ∧ DigitRun g.n1 ∧ ∀ n2, g.n2 = some n2 → DigitRun n2 := by
  unfold fullAfterName at h
  split at h
  · split at h
    · obtain ⟨a, ha, m2, r2, hstrip, hk⟩ := tryAlts_spec _ _ _ _ h
      cases hnt : numTail r2 with
      | none => rw [hnt] at hk; exact absurd hk (by simp)
      | some val =>
        obtain ⟨n1, n2o, rest2⟩ := val
        rw [hnt] at hk
        injection hk with hk
        rw [Prod.mk.injEq] at hk
        obtain ⟨h1, h2⟩ := hk
        rw [← h1]
        obtain ⟨hd1, hd2⟩ := numTail_spec r2 n1 n2o rest2 hnt
        exact ⟨rfl, hd1, hd2⟩
    · exact absurd h (by simp)
  · exact absurd h (by simp)

theorem fullMatchAt_spec (s : List Char) (g : CGroups) (rest : List Char)
    (h : fullMatchAt s = some (g, rest)) :
    (∃ a ∈ fullNames, g.raw.map pyLower = a.data.map pyLower)
    ∧ DigitRun g.n1 ∧ ∀ n2, g.n2 = some n2 → DigitRun n2 := by
  unfold fullMatchAt at h
  obtain ⟨ad, had, m, r, hstrip, hk⟩ := tryAlts_spec _ _ _ _ h
  obtain ⟨a, ha, hadata⟩ := List.mem_map.mp had
  obtain ⟨hrg, h1, h2⟩ := fullAfterName_spec m r g rest hk
  refine ⟨⟨a, ha, ?_⟩, h1, h2⟩
  rw [hrg, caselessStrip_spec ad s m r hstrip, hadata]

theorem book_lookup (raw : List Char)
    (h : ∃ a ∈ bookAlts, raw.map pyLower = a.data.map pyLower) :
    ∃ m ∈ nikCodes, alookup NIKAYA_ABBREV (pyLowerStr (String.mk raw)) = some m := by
  obtain ⟨a, ha, hl⟩ := h
  have hlow : pyLowerStr (String.mk raw) = pyLowerStr a := congrArg String.mk hl
  rw [hlow]
  clear hl hlow
  fin_cases ha <;> first
    | exact ⟨"Dhp", by decide, by decide⟩
    | exact ⟨"Ud", by decide, by decide⟩
    | exact ⟨"It", by decide, by decide⟩

theorem full_lookup (raw : List Char)
    (h : ∃ a ∈ fullNames, raw.map pyLower = a.data.map pyLower) :
    ∃ m ∈ nikCodes, alookup NIKAYA_ABBREV (pyLowerStr (String.mk raw)) = some m := by
  obtain ⟨a, ha, hl⟩ := h
  have hlow : pyLowerStr (String.mk raw) = pyLowerStr a := congrArg String.mk hl
  rw [hlow]
  clear hl hlow
  fin_cases ha <;> first
    | exact ⟨"DN", by decide, by decide⟩
    | exact ⟨"MN", by decide, by decide⟩
    | exact ⟨"SN", by decide, by decide⟩
    | exact ⟨"AN", by decide, by decide⟩

theorem book_cite_canon (g : CGroups)
    (hraw : ∃ a ∈ bookAlts, g.raw.map pyLower = a.data.map pyLower)
    (h1 : DigitRun g.n1) (h2 : ∀ n2, g.n2 = some n2 → DigitRun n2) :
    IsCanonRef (book_cite g) := by
  obtain ⟨m, hm, hlk⟩ := book_lookup g.raw hraw
  refine ⟨m, hm, g.n1, h1, ?_⟩
  unfold book_cite
  rw [hlk]
  cases hn : g.n2 with
  | none =>
    left
    exact str_append_empty _
  | some n2 =>
    right
    exact ⟨n2, h2 n2 hn, (str_append_assoc _ _ _).symm⟩

theorem full_cite_canon (g : CGroups)
    (hraw : ∃ a ∈ fullNames, g.raw.map pyLower = a.data.map pyLower)
    (h1 : DigitRun g.n1) (h2 : ∀ n2, g.n2 = some n2 → DigitRun n2) :
    IsCanonRef (full_cite g) := by
  obtain ⟨m, hm, hlk⟩ := full_lookup g.raw hraw
  refine ⟨m, hm, g.n1, h1, ?_⟩
  unfold full_cite
  rw [hlk]
  cases hn : g.n2 with
  | none =>
    left
    exact str_append_empty _
  | some n2 =>
    right
    exact ⟨n2, h2 n2 hn, (str_append_assoc _ _ _).symm⟩

theorem nik_citations_canon (text r : String) (h : r ∈ nik_citations text) :
    IsCanonRef r := by
  unfold nik_citations at h
  obtain ⟨g, hg, hc⟩ := List.mem_map.mp h
  obtain ⟨s1, r1, hM⟩ := scanWith_spec nikMatchAt _ _ _ _ hg
  obtain ⟨hraw, h1, h2⟩ := nikMatchAt_spec s1 g r1 hM
  rw [← hc]
  exact nik_cite_canon g hraw h1 h2

theorem book_citations_canon (text r : String) (h : r ∈ book_citations text) :
    IsCanonRef r := by
  unfold book_citations at h
  obtain ⟨g, hg, hc⟩ := List.mem_map.mp h
  obtain ⟨s1, r1, hM⟩ := scanWith_spec bookMatchAt _ _ _ _ hg
  obtain ⟨hraw, h1, h2⟩ := bookMatchAt_spec s1 g r1 hM
  rw [← hc]
  exact book_cite_canon g hraw h1 h2

theorem full_citations_canon (text r : String) (h : r ∈ full_citations text) :
    IsCanonRef r := by
  unfold full_citations at h
  obtain ⟨g, hg, hc⟩ := List.mem_map.mp h
  obtain ⟨s1, r1, hM⟩ := scanWith_spec fullMatchAt _ _ _ _ hg
  obtain ⟨hraw, h1, h2⟩ := fullMatchAt_spec s1 g r1 hM
  rw [← hc]
  exact full_cite_canon g hraw h1 h2

theorem alookup_mem_values {α : Type} (l : List (String × α)) (k : String) (v : α)
    (h : alookup l k = some v) : ∃ p ∈ l, p.2 = v := by
  induction l with
  | nil => exact absurd h (by simp [alookup])
  | cons p tl ih =>
    rcases p with ⟨k1, v1⟩
    unfold alookup at h
    split at h
    · injection h with h
      exact ⟨(k1, v1), List.mem_cons_self _ _, h⟩
    · obtain ⟨p2, hp2, hv⟩ := ih h
      exact ⟨p2, List.mem_cons_of_mem _ hp2, hv⟩

theorem canonRef1 (code : String) (hc : code ∈ nikCodes) (n1 : List Char)
    (h1 : DigitRun n1) : IsCanonRef (code ++ " " ++ String.mk n1) :=
  ⟨code, hc, n1, h1, Or.inl rfl⟩

theorem canonRef2 (code : String) (hc : code ∈ nikCodes) (n1 n2 : List Char)
    (h1 : DigitRun n1) (h2 : DigitRun n2) :
    IsCanonRef (code ++ " " ++ String.mk n1 ++ "." ++ String.mk n2) :=
  ⟨code, hc, n1, h1, Or.inr ⟨n2, h2, rfl⟩⟩

theorem suttaRef_canon (p : String × String) (hp : p ∈ SUTTA_NAME_TO_REF) :
    IsCanonRef p.2 := by
  fin_cases hp <;> first
    | exact canonRef2 "SN" (by decide) "56".data "11".data (by decide) (by decide)
    | exact canonRef2 "SN" (by decide) "22".data "59".data (by decide) (by decide)
    | exact canonRef2 "SN" (by decide) "35".data "28".data (by decide) (by decide)
    | exact canonRef1 "MN" (by decide) "10".data (by decide)
    | exact canonRef1 "DN" (by decide) "22".data (by decide)
    | exact canonRef2 "AN" (by decide) "3".data "65".data (by decide) (by decide)
    | exact canonRef1 "DN" (by decide) "31".data (by decide)
    | exact canonRef1 "DN" (by decide) "16".data (by decide)
    | exact canonRef1 "MN" (by decide) "21".data (by decide)
    | exact canonRef1 "MN" (by decide) "118".data (by decide)

theorem sutta_citations_canon (text r : String) (h : r ∈ sutta_citations text) :
    IsCanonRef r := by
  unfold sutta_citations at h
  obtain ⟨m, hm, hlk⟩ := List.mem_filterMap.mp h
  obtain ⟨p, hp, hv⟩ := alookup_mem_values _ _ _ hlk
  rw [← hv]
  exact suttaRef_canon p hp

theorem substr_citations_canon (text r : String) (h : r ∈ substr_citations text) :
    IsCanonRef r := by
  unfold substr_citations at h
  dsimp only at h
  obtain ⟨p, hp, hif⟩ := List.mem_filterMap.mp h
  split at hif
  · injection hif with hif
    rw [← hif]
    exact suttaRef_canon p hp
  · exact absurd hif (by simp)

theorem extract_canon (text r : String) (h : r ∈ extract_citations text) :
    IsCanonRef r := by
  unfold extract_citations at h
  split at h
  · exact absurd h (by simp)
  · have h2 := mem_of_mem_dedupL r _ ((mem_isortStr r _).mp h)
    rcases List.mem_append.mp h2 with h3 | h5
    · rcases List.mem_append.mp h3 with h4 | hsut
      · rcases List.mem_append.mp h4 with h6 | hful
        · rcases List.mem_append.mp h6 with hnik | hbook
          · exact nik_citations_canon text r hnik
          · exact book_citations_canon text r hbook
        · exact full_citations_canon text r hful
      · exact sutta_citations_canon text r hsut
    · exact substr_citations_canon text r h5

/-- C9: round-trip idempotence of citation extraction — every reference
string `r` produced by `extract_citations` on any input text is returned
unchanged (as a member of the result) when `r` itself is fed back into
`extract_citations`. -/
theorem extract_citations_roundtrip (text r : String)
    (h : r ∈ extract_citations text) : r ∈ extract_citations r :=
  reextract_canon r (extract_canon text r h)

theorem extract_citations_roundtrip_witness :
    ("SN 35.28" ∈ extract_citations "See SN 35.28")
    ∧ "SN 35.28" ∈ extract_citations "SN 35.28" :=
  ⟨by decide, extract_citations_roundtrip "See SN 35.28" "SN 35.28" (by decide)⟩
